import Mathlib

/-!
Verification of the makehtml DOCX-to-HTML converter (`src/makehtml.py`).

The Python source is shallowly embedded below: every function of the
converter's core (escaping, search/replace passes, the run consolidator
with hyperlink splicing, the explicit and field-code hyperlink extractors,
the recursive nested-list builder, paragraph/heading/quote conversion, the
table renderer and the block dispatcher) is translated into an executable
Lean definition, and the claims about the program are settled as theorems
about those definitions.

Conventions of the embedding:
* Python strings are `String` (a list of characters); `str.strip`,
  `str.lower`, `str.startswith` and `str.split` are reimplemented over the
  character list (`pyStrip`, `pyLower`, `pyStartsWith`, `splitNl`).
* Python's `str.replace`, `str.count` and the case-insensitive `re.sub`
  over an escaped (hence literal) pattern are implemented as left-to-right
  non-overlapping scans.  They recurse on an explicit `fuel` argument that
  the wrappers always instantiate with the length of the scanned character
  list; every recursion step consumes at least one character and one unit
  of fuel, so the out-of-fuel branches are unreachable from the wrappers
  (the lemmas about them carry the `length ≤ fuel` invariant).
* XML elements are records carrying exactly the attributes the Python code
  inspects.  Element identity (Python's `run._element in link_runs`) is
  modelled by a numeric run identity `rid`.
* Loops that walk an index over a list (the field-code scanner, the nested
  list builder) become well-founded recursions on `length - index`; the
  list builder returns the next index together with a proof that it does
  not move backwards, which is the termination argument of the Python
  recursion.
-/

namespace Makehtml

/-! ### Python-style string primitives -/

/-- Left-to-right non-overlapping replacement of `pat` by `rep`
(Python `str.replace`, and `re.sub` over an `re.escape`d pattern).
`fuel` is always called with the length of `cs`. -/
def pyRepFuel (pat rep : List Char) : Nat → List Char → List Char
  | _, [] => []
  | 0, cs => cs
  | fuel + 1, c :: cs =>
    if pat ≠ [] ∧ pat.isPrefixOf (c :: cs) then
      rep ++ pyRepFuel pat rep fuel ((c :: cs).drop pat.length)
    else
      c :: pyRepFuel pat rep fuel cs

/-- Python `s.replace(pat, rep)` (callers never pass an empty `pat`). -/
def pyReplace (s pat rep : String) : String :=
  ⟨pyRepFuel pat.data rep.data s.data.length s.data⟩

/-- Non-overlapping occurrence count, Python `s.count(pat)`. -/
def countSubFuel (pat : List Char) : Nat → List Char → Nat
  | _, [] => 0
  | 0, _ => 0
  | fuel + 1, c :: cs =>
    if pat ≠ [] ∧ pat.isPrefixOf (c :: cs) then
      1 + countSubFuel pat fuel ((c :: cs).drop pat.length)
    else
      countSubFuel pat fuel cs

/-- Python `s.count(pat)`; for an empty pattern Python returns `len(s) + 1`. -/
def countSub (s pat : String) : Nat :=
  if pat = "" then s.length + 1 else countSubFuel pat.data s.data.length s.data

/-- Case-insensitive left-to-right non-overlapping replacement
(Python `re.compile(re.escape(search), re.IGNORECASE).sub(replace, s)`). -/
def iRepFuel (pat rep : List Char) : Nat → List Char → List Char
  | _, [] => []
  | 0, cs => cs
  | fuel + 1, c :: cs =>
    if pat ≠ [] ∧ ((c :: cs).take pat.length).map Char.toLower = pat.map Char.toLower then
      rep ++ iRepFuel pat rep fuel ((c :: cs).drop pat.length)
    else
      c :: iRepFuel pat rep fuel cs

/-- Python case-insensitive literal substring replacement. -/
def pyIReplace (s pat rep : String) : String :=
  ⟨iRepFuel pat.data rep.data s.data.length s.data⟩

/-- Python `sub in s` (via the same counting scan; `countSub s "" ≠ 0` matches
Python's `'' in s = True`). -/
def hasSubstr (s sub : String) : Bool :=
  countSub s sub != 0

/-- Python `str.strip()`: drop leading and trailing whitespace. -/
def pyStrip (s : String) : String :=
  ⟨((s.data.dropWhile Char.isWhitespace).reverse.dropWhile Char.isWhitespace).reverse⟩

/-- Python `str.lower()`. -/
def pyLower (s : String) : String :=
  ⟨s.data.map Char.toLower⟩

/-- Python `str.startswith(pre)`. -/
def pyStartsWith (s pre : String) : Bool :=
  pre.data.isPrefixOf s.data

/-- Python `str.split('\n')` (an empty string yields `[""]`). -/
def splitNl : List Char → List (List Char)
  | [] => [[]]
  | c :: cs =>
    if c = '\n' then [] :: splitNl cs
    else
      match splitNl cs with
      | g :: gs => (c :: g) :: gs
      | [] => [[c]]

/-- Numeric value of a digit string (the `int(...)` of a regex digit group). -/
def natOfDigits (ds : List Char) : Nat :=
  ds.foldl (fun n c => 10 * n + (c.toNat - 48)) 0

/-- `re.search(r'\d+$', s)`: the maximal digit suffix of `s`, as a number. -/
def trailingNat (s : String) : Option Nat :=
  let ds := (s.data.reverse.takeWhile Char.isDigit).reverse
  if ds = [] then none else some (natOfDigits ds)

/-- `_escape_html`: sequential replacement of `&`, `<`, `>`, `"`, `'`
by their entities, in the Python dict's insertion order. -/
def escapeHtml (text : String) : String :=
  let t1 := pyReplace text "&" "&amp;"
  let t2 := pyReplace t1 "<" "&lt;"
  let t3 := pyReplace t2 ">" "&gt;"
  let t4 := pyReplace t3 "\"" "&quot;"
  pyReplace t4 "\x27" "&#39;"

/-! ### Data model: runs and hyperlink spans -/

/-- One entry of the `_extract_hyperlinks` result:
`(hyperlink_id, url, list_of_run_elements, fallback_text)`.
Member run elements are recorded by their identity. -/
structure Span where
  id : String
  url : String
  runIds : List Nat
  text : String
deriving DecidableEq, Repr

/-- A python-docx run: element identity, text, and the three boolean
formatting flags (after Python's `bool(...)` coercion). -/
structure Run where
  rid : Nat
  text : String
  bold : Bool
  italic : Bool
  underline : Bool
deriving DecidableEq, Repr

/-- The triple `(link_id, link_url, link_text)` that `_process_runs` binds to
`run_hyperlink` / `current_hyperlink`. -/
abbrev HypRef := String × String × String

/-- The `current_group` dict of `_process_runs`: accumulated escaped text and
the group's formatting signature.  The flag fields start as Python `None`,
hence the `Option`. -/
structure Group where
  text : List String
  bold : Option Bool
  italic : Option Bool
  underline : Option Bool
  hyperlink : Option HypRef
deriving DecidableEq, Repr

/-- The full mutable state of the `_process_runs` walk. -/
structure PRState where
  result : List String
  currentHyperlink : Option HypRef
  hyperlinkText : List String
  processed : List String
  group : Group
deriving DecidableEq, Repr

def initGroup : Group := ⟨[], none, none, none, none⟩

def initPRState : PRState := ⟨[], none, [], [], initGroup⟩

/-- `_format_link`. -/
def formatLink (url text : String) : String :=
  "<a href=\"" ++ url ++ "\">" ++ text ++ "</a>"

/-- The tag application of `flush_group`: underline innermost, then italic,
then bold (the flags are the group's `Option Bool` fields; Python's
truthiness of `None`/`False`/`True` is `= some true`). -/
def applyFmt (b i u : Option Bool) (t : String) : String :=
  let t1 := if u = some true then "<u>" ++ t ++ "</u>" else t
  let t2 := if i = some true then "<em>" ++ t1 ++ "</em>" else t1
  if b = some true then "<strong>" ++ t2 ++ "</strong>" else t2

/-- `flush_group`: apply the group's tags to its accumulated text and move the
result into either the hyperlink buffer or the plain result stream. -/
def flushGroup (st : PRState) : PRState :=
  if st.group.text = [] then st
  else
    let combined := String.join st.group.text
    let formatted := applyFmt st.group.bold st.group.italic st.group.underline combined
    if st.group.hyperlink.isSome then
      { st with hyperlinkText := st.hyperlinkText ++ [formatted],
                group := { st.group with text := [] } }
    else
      { st with result := st.result ++ [formatted],
                group := { st.group with text := [] } }

/-- The hyperlink-closing code of `_process_runs` (used when a link starts,
switches, ends, or is still open at the end of the walk): emit the anchor from
the accumulated inner text, falling back to the span's text or its URL. -/
def closeHyperlink (st : PRState) : PRState :=
  match st.currentHyperlink with
  | none => st
  | some (_, hurl, htext) =>
    if st.hyperlinkText ≠ [] then
      { st with result := st.result ++ [formatLink hurl (String.join st.hyperlinkText)],
                hyperlinkText := [] }
    else
      let fallback := if htext ≠ "" then htext else hurl
      { st with result := st.result ++ [formatLink hurl fallback],
                hyperlinkText := [] }

/-- The per-run membership search: the first span whose member runs contain
this run's element. -/
def lookupHyp (spans : List Span) (rid : Nat) : Option HypRef :=
  match spans.find? (fun sp => sp.runIds.contains rid) with
  | some sp => some (sp.id, sp.url, sp.text)
  | none => none

/-- One iteration of the `for run in paragraph.runs` loop of `_process_runs`. -/
def stepRun (spans : List Span) (st : PRState) (run : Run) : PRState :=
  let rh := lookupHyp spans run.rid
  let st :=
    match rh with
    | some (i, _, _) => { st with processed := st.processed ++ [i] }
    | none => st
  if run.text = "" ∧ rh = none then st
  else
    let st :=
      if rh.isSome ∧ rh ≠ st.currentHyperlink then
        let st1 := flushGroup st
        let st2 := closeHyperlink st1
        { st2 with currentHyperlink := rh }
      else if rh = none ∧ st.currentHyperlink.isSome then
        let st1 := flushGroup st
        let st2 := closeHyperlink st1
        { st2 with currentHyperlink := none }
      else st
    let escaped := if run.text = "" ∧ rh.isSome then "" else escapeHtml run.text
    let runBold := run.bold
    let runItalic := run.italic
    let runUnderline := run.underline && !rh.isSome
    let st :=
      if ¬ (st.group.bold = some runBold ∧ st.group.italic = some runItalic ∧
            st.group.underline = some runUnderline ∧ st.group.hyperlink = rh) ∧
          st.group.text ≠ [] then
        flushGroup st
      else st
    let st :=
      if st.group.text = [] then
        { st with group := ⟨st.group.text, some runBold, some runItalic, some runUnderline, rh⟩ }
      else st
    { st with group := { st.group with text := st.group.text ++ [escaped] } }

/-- The epilogue of `_process_runs`: flush the open group, close a still-open
hyperlink, then append every never-visited span with nonempty fallback text,
each preceded by a literal space. -/
def finalizeRuns (spans : List Span) (st : PRState) : String :=
  let st := flushGroup st
  let st := closeHyperlink st
  let resultTail := spans.foldl
    (fun acc sp =>
      if ¬ sp.id ∈ st.processed ∧ sp.text ≠ "" then
        acc ++ [" ", formatLink sp.url sp.text]
      else acc)
    []
  String.join (st.result ++ resultTail)

/-- `_process_runs`: the whole consolidation walk over a paragraph's runs. -/
def processRuns (runs : List Run) (hyperlinks : List Span) : String :=
  finalizeRuns hyperlinks (runs.foldl (stepRun hyperlinks) initPRState)

/-! ### Explicit hyperlink extraction (`_extract_hyperlinks`, method 1) -/

/-- A `w:hyperlink` wrapper element: its relationship id and anchor
attributes, the identities of the `w:r` runs nested under it, and the
element's own text (`hyperlink.text`, which may be absent). -/
structure LinkElem where
  rid : Option String := none
  anchor : Option String := none
  runIds : List Nat := []
  text : Option String := none
deriving DecidableEq, Repr

/-- `paragraph.part.rels[r_id].target_ref` with the `try/except` behaviour:
an unknown id yields no URL. -/
def resolveRel (rels : List (String × String)) (rid : String) : Option String :=
  match rels.find? (fun pr => pr.1 == rid) with
  | some pr => some pr.2
  | none => none

/-- Python string interpolation of a possibly-`None` value. -/
def pyOrText : Option String → String
  | some s => s
  | none => "None"

/-- The `r_id or anchor` part of the link id `f'{r_id or anchor}_{idx}'`. -/
def linkIdBase (rid anchor : Option String) : String :=
  match rid with
  | some r => if r ≠ "" then r else pyOrText anchor
  | none => pyOrText anchor

/-- Method 1 of `_extract_hyperlinks`: resolve each wrapper's URL through the
relationship table or the anchor, drop the wrapper when neither yields a URL,
and record the wrapper's own text as fallback. -/
def extractExplicitHyperlinks (rels : List (String × String)) (elems : List LinkElem) :
    List Span :=
  (elems.enum).filterMap (fun pr =>
    let idx := pr.1
    let hl := pr.2
    let urlA : Option String :=
      match hl.rid with
      | some r => if r ≠ "" then resolveRel rels r else none
      | none => none
    let anchorTruthy : Bool :=
      match hl.anchor with
      | some a => a ≠ ""
      | none => false
    let urlB : Option String :=
      if (urlA = none ∨ urlA = some "") ∧ anchorTruthy then
        some ("#" ++ hl.anchor.getD "")
      else urlA
    match urlB with
    | some u =>
      if u ≠ "" then
        some ⟨linkIdBase hl.rid hl.anchor ++ "_" ++ toString idx, u, hl.runIds, hl.text.getD ""⟩
      else none
    | none => none)

/-! ### Field-code hyperlink extraction (`_extract_field_hyperlinks`) -/

/-- A raw `w:r` element as the field scanner sees it: its identity, the
`fldCharType` of its first `w:fldChar` descendant (if any), the text of its
first `w:instrText` descendant (if any, and `none` also models a present
element with `None` text), and the texts of its `w:t` descendants. -/
structure RawRun where
  rid : Nat
  fldChar : Option String := none
  instrText : Option String := none
  texts : List String := []
deriving DecidableEq, Repr

/-- `re.search(r'HYPERLINK\s+"([^"]+)"', s)` tried at the head of `cs`:
the literal keyword, one or more whitespace characters, then a
double-quoted nonempty group. -/
def hlMatchAt (cs : List Char) : Option String :=
  if "HYPERLINK".data.isPrefixOf cs then
    let rest := cs.drop 9
    let ws := rest.takeWhile Char.isWhitespace
    if ws = [] then none
    else
      match rest.drop ws.length with
      | '"' :: rest2 =>
        let body := rest2.takeWhile (fun c => c ≠ '"')
        if body = [] then none
        else
          match rest2.drop body.length with
          | '"' :: _ => some (String.mk body)
          | _ => none
      | _ => none
  else none

/-- Leftmost match of the `HYPERLINK "..."` pattern anywhere in the string. -/
def hlSearch : List Char → Option String
  | [] => none
  | c :: cs =>
    match hlMatchAt (c :: cs) with
    | some u => some u
    | none => hlSearch cs

/-- The first inner `while` of `_extract_field_hyperlinks`: scan forward from
`j` for a truthy `instrText` starting (after strip) with `HYPERLINK`; on such a
run stop with the regex result (which may still be `none`); stop with no URL on
a `separate`/`end` field character or at the end of the runs.  Returns the URL
found and the index at which the loop stopped. -/
def scanInstr (runs : List RawRun) (j : Nat) : Option String × Nat :=
  if h : j < runs.length then
    let r := runs.get ⟨j, h⟩
    match r.instrText with
    | some s =>
      if s ≠ "" ∧ pyStartsWith (pyStrip s) "HYPERLINK" then (hlSearch (pyStrip s).data, j)
      else if r.fldChar = some "separate" ∨ r.fldChar = some "end" then (none, j)
      else scanInstr runs (j + 1)
    | none =>
      if r.fldChar = some "separate" ∨ r.fldChar = some "end" then (none, j)
      else scanInstr runs (j + 1)
  else (none, j)
termination_by runs.length - j

/-- The second inner `while`: skip forward to just past the `separate` field
character (or to the end of the runs). -/
def scanSep (runs : List RawRun) (j : Nat) : Nat :=
  if h : j < runs.length then
    if (runs.get ⟨j, h⟩).fldChar = some "separate" then j + 1
    else scanSep runs (j + 1)
  else j
termination_by runs.length - j

/-- The third inner `while`: collect every run up to (not including) the `end`
field character; returns the collected runs and the stopping index. -/
def collectRuns (runs : List RawRun) (j : Nat) : List RawRun × Nat :=
  if h : j < runs.length then
    let r := runs.get ⟨j, h⟩
    if r.fldChar = some "end" then ([], j)
    else
      let res := collectRuns runs (j + 1)
      (r :: res.1, res.2)
  else ([], j)
termination_by runs.length - j

theorem scanInstr_le (runs : List RawRun) (j : Nat) : j ≤ (scanInstr runs j).2 := by
  have H : ∀ n j, runs.length - j ≤ n → j ≤ (scanInstr runs j).2 := by
    intro n
    induction n with
    | zero =>
      intro j hj
      rw [scanInstr]
      split
      · omega
      · simp
    | succ n ih =>
      intro j hj
      rw [scanInstr]
      split
      · rename_i h
        dsimp only
        split
        · split
          · simp
          · split
            · simp
            · have := ih (j + 1) (by omega)
              omega
        · split
          · simp
          · have := ih (j + 1) (by omega)
            omega
      · simp
  exact H (runs.length - j) j (Nat.le_refl _)

theorem scanSep_le (runs : List RawRun) (j : Nat) : j ≤ scanSep runs j := by
  have H : ∀ n j, runs.length - j ≤ n → j ≤ scanSep runs j := by
    intro n
    induction n with
    | zero =>
      intro j hj
      rw [scanSep]
      split
      · omega
      · exact Nat.le_refl j
    | succ n ih =>
      intro j hj
      rw [scanSep]
      split
      · rename_i h
        split
        · omega
        · have := ih (j + 1) (by omega)
          omega
      · exact Nat.le_refl j
  exact H (runs.length - j) j (Nat.le_refl _)

theorem collectRuns_le (runs : List RawRun) (j : Nat) : j ≤ (collectRuns runs j).2 := by
  have H : ∀ n j, runs.length - j ≤ n → j ≤ (collectRuns runs j).2 := by
    intro n
    induction n with
    | zero =>
      intro j hj
      rw [collectRuns]
      split
      · omega
      · simp
    | succ n ih =>
      intro j hj
      rw [collectRuns]
      split
      · rename_i h
        dsimp only
        split
        · simp
        · have := ih (j + 1) (by omega)
          omega
      · simp
  exact H (runs.length - j) j (Nat.le_refl _)

/-- `''.join(t.text for ...)` over the collected member runs. -/
def fieldLinkText (linkRuns : List RawRun) : String :=
  String.join (linkRuns.map (fun r => String.join r.texts))

/-- The outer `while` of `_extract_field_hyperlinks`: find a `begin` field
character, resolve the URL via `scanInstr`, then (when a truthy URL was found)
skip to the separator, collect the member runs, and emit a span only when at
least one member run was collected; in every non-URL case move on by one run. -/
def extractFieldLoop (runs : List RawRun) (i : Nat) (fieldIdx : Nat) : List Span :=
  if h : i < runs.length then
    if (runs.get ⟨i, h⟩).fldChar = some "begin" then
      match (scanInstr runs (i + 1)).1 with
      | some url =>
        if url ≠ "" then
          let col := collectRuns runs (scanSep runs (scanInstr runs (i + 1)).2)
          if col.1 ≠ [] then
            ⟨"field_" ++ toString fieldIdx, url, col.1.map RawRun.rid, fieldLinkText col.1⟩
              :: extractFieldLoop runs (col.2 + 1) (fieldIdx + 1)
          else extractFieldLoop runs (col.2 + 1) fieldIdx
        else extractFieldLoop runs (i + 1) fieldIdx
      | none => extractFieldLoop runs (i + 1) fieldIdx
    else extractFieldLoop runs (i + 1) fieldIdx
  else []
termination_by runs.length - i
decreasing_by
  all_goals
    first
    | omega
    | (have h1 := scanInstr_le runs (i + 1)
       have h2 := scanSep_le runs (scanInstr runs (i + 1)).2
       have h3 := collectRuns_le runs (scanSep runs (scanInstr runs (i + 1)).2)
       omega)

/-- `_extract_field_hyperlinks`. -/
def extractFieldHyperlinks (runs : List RawRun) : List Span :=
  extractFieldLoop runs 0 0

/-! ### Nested list building (`_create_list_html` / `_build_nested_list`) -/

/-- The two values the Python code stores in `list_type`. -/
inductive LKind where
  | bullet
  | number
deriving DecidableEq, Repr

/-- One accumulated `(level, list_type, text)` tuple.  The level is an integer
because the style-name fallback computes `int(suffix) - 1`, which Python lets
go negative. -/
structure LItem where
  level : Int
  kind : LKind
  text : String
deriving DecidableEq, Repr

/-- `'ul' if list_type == 'bullet' else 'ol'`. -/
def tagOf (k : LKind) : String :=
  match k with
  | .bullet => "ul"
  | .number => "ol"

/-- The `if list_started and current_list_type:` closing fragment
(`current_list_type` non-`None` exactly when the list was started). -/
def closeParts (ctype : Option LKind) : List String :=
  match ctype with
  | some t => ["</" ++ tagOf t ++ ">"]
  | none => []

/-- `'\n'.join('    ' + line for line in nested_html.split('\n'))`. -/
def indentNested (nested : String) : String :=
  String.intercalate "\n" ((splitNl nested.data).map (fun line => "    " ++ String.mk line))

/-- The same-level tag bookkeeping of `_build_nested_list`: start the list
when none is open, or close-and-reopen when the item's kind differs from the
open list's kind; returns the updated `html_parts` and the open list kind. -/
def openedParts (ctype : Option LKind) (k : LKind) (acc : List String) :
    List String × LKind :=
  match ctype with
  | none => (acc ++ ["<" ++ tagOf k ++ ">"], k)
  | some t =>
    if t ≠ k then
      (acc ++ ["</" ++ tagOf t ++ ">", "<" ++ tagOf k ++ ">"], k)
    else (acc, t)

/-- The `while` loop of `_build_nested_list`, with the loop-carried state
(`i`, `current_list_type`-and-`list_started` as one `Option`, `html_parts`)
made explicit.  Returns `('\n'.join(html_parts), next_index)` together with
the proof that the index does not move backwards, which justifies the
termination of the Python recursion. -/
def buildLoop (items : List LItem) (currentLevel : Int) (i : Nat) (ctype : Option LKind)
    (acc : List String) : { r : String × Nat // i ≤ r.2 } :=
  if h : i < items.length then
    let it := items.get ⟨i, h⟩
    if it.level < currentLevel then
      ⟨(String.intercalate "\n" (acc ++ closeParts ctype), i), Nat.le_refl i⟩
    else if it.level = currentLevel then
      let opened := openedParts ctype it.kind acc
      if h2 : i + 1 < items.length then
        if (items.get ⟨i + 1, h2⟩).level > it.level then
          match buildLoop items (items.get ⟨i + 1, h2⟩).level (i + 1) none [] with
          | ⟨(nestedHtml, nextI), hnext⟩ =>
            match buildLoop items currentLevel nextI (some opened.2)
                (opened.1 ++ ["  <li>" ++ it.text, indentNested nestedHtml, "  </li>"]) with
            | ⟨r, hr⟩ => ⟨r, by omega⟩
        else
          match buildLoop items currentLevel (i + 1) (some opened.2)
              (opened.1 ++ ["  <li>" ++ it.text ++ "</li>"]) with
          | ⟨r, hr⟩ => ⟨r, by omega⟩
      else
        match buildLoop items currentLevel (i + 1) (some opened.2)
            (opened.1 ++ ["  <li>" ++ it.text ++ "</li>"]) with
        | ⟨r, hr⟩ => ⟨r, by omega⟩
    else
      ⟨(String.intercalate "\n" (acc ++ closeParts ctype), i), Nat.le_refl i⟩
  else
    ⟨(String.intercalate "\n" (acc ++ closeParts ctype), i), Nat.le_refl i⟩
termination_by items.length - i
decreasing_by all_goals omega

/-- `_build_nested_list(items, start_index, current_level)`. -/
def buildNestedList (items : List LItem) (startIndex : Nat) (currentLevel : Int) :
    String × Nat :=
  if startIndex ≥ items.length then ("", startIndex)
  else (buildLoop items currentLevel startIndex none []).val

/-- A structural twin of `buildLoop` recursing on explicit fuel, used to
evaluate the well-founded recursion on concrete inputs.  When the fuel runs
out it returns the same close-and-return result as the out-of-bounds case;
`buildLoopF_eq` shows the two agree whenever `fuel ≥ items.length - i`. -/
def buildLoopF (items : List LItem) :
    Nat → Int → Nat → Option LKind → List String → String × Nat
  | 0, _, i, ctype, acc => (String.intercalate "\n" (acc ++ closeParts ctype), i)
  | fuel + 1, currentLevel, i, ctype, acc =>
    if h : i < items.length then
      let it := items.get ⟨i, h⟩
      if it.level < currentLevel then
        (String.intercalate "\n" (acc ++ closeParts ctype), i)
      else if it.level = currentLevel then
        let opened := openedParts ctype it.kind acc
        if h2 : i + 1 < items.length then
          if (items.get ⟨i + 1, h2⟩).level > it.level then
            let nested := buildLoopF items fuel (items.get ⟨i + 1, h2⟩).level (i + 1) none []
            buildLoopF items fuel currentLevel nested.2 (some opened.2)
              (opened.1 ++ ["  <li>" ++ it.text, indentNested nested.1, "  </li>"])
          else
            buildLoopF items fuel currentLevel (i + 1) (some opened.2)
              (opened.1 ++ ["  <li>" ++ it.text ++ "</li>"])
        else
          buildLoopF items fuel currentLevel (i + 1) (some opened.2)
            (opened.1 ++ ["  <li>" ++ it.text ++ "</li>"])
      else
        (String.intercalate "\n" (acc ++ closeParts ctype), i)
    else (String.intercalate "\n" (acc ++ closeParts ctype), i)

/-- `_create_list_html`: empty input yields the empty string, otherwise build
from the minimum level found in the whole buffer.  The `listType` parameter is
carried (and ignored) exactly as in the source. -/
def createListHtml (items : List LItem) (listType : Option LKind) : String :=
  match items with
  | [] => ""
  | it0 :: restItems =>
    let minLevel := (restItems.map LItem.level).foldl min it0.level
    (buildNestedList (it0 :: restItems) 0 minLevel).1

/-! ### Paragraph classification and conversion -/

/-- The `w:numPr` data read by `_get_list_info`: the `w:ilvl` value (absent
element or absent attribute both yield level 0) and presence of `w:numId`. -/
structure NumPr where
  ilvl : Option Int := none
  numId : Option Int := none
deriving DecidableEq, Repr

/-- A paragraph as the converter sees it: style name, runs with their
formatting, the extracted hyperlink spans, and numbering properties. -/
structure Para where
  styleName : String
  runs : List Run := []
  hyperlinks : List Span := []
  numPr : Option NumPr := none
deriving DecidableEq, Repr

/-- python-docx `paragraph.text`: concatenation of the runs' text. -/
def paraText (p : Para) : String :=
  String.join (p.runs.map Run.text)

/-- Level from a trailing style-name integer, e.g. `List Bullet 2 → 1`. -/
def styleLevel (styleName : String) : Int :=
  match trailingNat styleName with
  | some n => (n : Int) - 1
  | none => 0

/-- The style-name fallback classification of `_get_list_info`. -/
def styleListInfo (p : Para) : Option (LKind × Int × String) :=
  let sn := pyLower p.styleName
  if hasSubstr sn "list bullet" || pyStartsWith p.styleName "List Bullet" then
    some (LKind.bullet, styleLevel p.styleName, processRuns p.runs p.hyperlinks)
  else if hasSubstr sn "list number" || pyStartsWith p.styleName "List Number" then
    some (LKind.number, styleLevel p.styleName, processRuns p.runs p.hyperlinks)
  else none

/-- `_get_list_info`: numbering properties (with a `numId`) always classify as
a bullet item at the `ilvl` level; otherwise fall back to the style name. -/
def getListInfo (p : Para) : Option (LKind × Int × String) :=
  match p.numPr with
  | some np =>
    if np.numId.isSome then
      some (LKind.bullet, np.ilvl.getD 0, processRuns p.runs p.hyperlinks)
    else styleListInfo p
  | none => styleListInfo p

/-! ### Configuration -/

/-- The `quote_detection` configuration section. -/
structure QuoteDetection where
  enabled : Option Bool := none
  threshold : Option Nat := none
  wrapTag : Option String := none
  quoteTypes : Option (List String) := none
deriving DecidableEq, Repr

/-- One legacy `special_characters` dict entry. -/
structure LegacySpecialChar where
  enabled : Option Bool := none
  wrapTag : Option String := none
deriving DecidableEq, Repr

/-- One modern `special_characters` list entry. -/
structure SpecialCharRule where
  character : Option String := none
  wrapTag : Option String := none
  enabled : Option Bool := none
deriving DecidableEq, Repr

/-- The two shapes `_apply_special_characters` accepts: the legacy dict with
its two recognized keys, or the modern list. -/
inductive SpecialCharsConfig where
  | legacyDict (copyrightSymbol registeredSymbol : Option LegacySpecialChar)
  | modernList (rules : List SpecialCharRule)
deriving DecidableEq, Repr

/-- One `replacements` rule. -/
structure ReplacementRule where
  search : Option String := none
  replace : Option String := none
  caseSensitive : Option Bool := none
deriving DecidableEq, Repr

/-- The `output` configuration section. -/
structure OutputConfig where
  headingTag : Option String := none
  paragraphTag : Option String := none
deriving DecidableEq, Repr

/-- The converter configuration (`self.config` and its `.get` projections). -/
structure Config where
  output : OutputConfig := ⟨none, none⟩
  specialCharacters : SpecialCharsConfig := .legacyDict none none
  replacements : List ReplacementRule := []
  quoteDetection : QuoteDetection := ⟨none, none, none, none⟩
deriving DecidableEq, Repr

/-- A configuration with every option absent (`{}` for each section). -/
def emptyConfig : Config :=
  ⟨⟨none, none⟩, .legacyDict none none, [], ⟨none, none, none, none⟩⟩

/-- The default `quote_types` literal of `_count_quotes` (the source really
lists the straight double quote three times and the straight single quote
twice). -/
def defaultQuoteTypes : List String :=
  ["\"", "\"", "\"", "\x27", "\x27"]

/-- `_count_quotes`: the sum of `text.count(qt)` over the configured types. -/
def countQuotes (cfg : Config) (text : String) : Nat :=
  let qts := cfg.quoteDetection.quoteTypes.getD defaultQuoteTypes
  (qts.map (fun qt => countSub text qt)).sum

/-- `_parse_wrap_tag`: a tag name optionally followed by attributes. -/
def parseWrapTag (wrapTag : String) : String × String :=
  let wt := pyStrip wrapTag
  if ' ' ∈ wt.data then
    let tagName := String.mk (wt.data.takeWhile (fun c => ¬ c.isWhitespace))
    ("<" ++ wt ++ ">", "</" ++ tagName ++ ">")
  else
    ("<" ++ wt ++ ">", "</" ++ wt ++ ">")

/-- `_convert_paragraph`: suppress empty paragraphs, emit headings from the
escaped plain text, and wrap quote-heavy paragraphs when detection is on. -/
def convertParagraph (cfg : Config) (p : Para) : String :=
  let text := pyStrip (paraText p)
  if text = "" then ""
  else if pyStartsWith p.styleName "Heading" then
    let tag := cfg.output.headingTag.getD "h3"
    "<" ++ tag ++ ">" ++ escapeHtml text ++ "</" ++ tag ++ ">"
  else
    let tag := cfg.output.paragraphTag.getD "p"
    let htmlText := processRuns p.runs p.hyperlinks
    if cfg.quoteDetection.enabled.getD false then
      let threshold := cfg.quoteDetection.threshold.getD 3
      if countQuotes cfg text ≥ threshold then
        let wrapTag := cfg.quoteDetection.wrapTag.getD "blockquote"
        let parsed := parseWrapTag wrapTag
        parsed.1 ++ "<" ++ tag ++ ">" ++ htmlText ++ "</" ++ tag ++ ">" ++ parsed.2
      else "<" ++ tag ++ ">" ++ htmlText ++ "</" ++ tag ++ ">"
    else "<" ++ tag ++ ">" ++ htmlText ++ "</" ++ tag ++ ">"

/-! ### Table rendering (`_convert_table`) -/

/-- `_convert_table`: first row as `<thead>`, remaining rows as `<tbody>`
(omitted for a single-row table); a rowless table renders as nothing. -/
def convertTable (rows : List (List String)) : String :=
  match rows with
  | [] => ""
  | headerRow :: bodyRows =>
    let headerParts :=
      ["  <thead>", "    <tr>"] ++
        headerRow.map (fun cell => "      <th>" ++ escapeHtml (pyStrip cell) ++ "</th>") ++
        ["    </tr>", "  </thead>"]
    let bodyParts :=
      if bodyRows ≠ [] then
        ["  <tbody>"] ++
          (bodyRows.map (fun row =>
            ["    <tr>"] ++
              row.map (fun cell => "      <td>" ++ escapeHtml (pyStrip cell) ++ "</td>") ++
              ["    </tr>"])).join ++
          ["  </tbody>"]
      else []
    String.intercalate "\n" (["<table>"] ++ headerParts ++ bodyParts ++ ["</table>"])

/-! ### Block dispatch (`convert_docx_to_html`) -/

/-- A top-level document element: a paragraph (`CT_P`) or a table (`CT_Tbl`,
given as its grid of cell texts). -/
inductive Block where
  | para (p : Para)
  | table (rows : List (List String))
deriving DecidableEq, Repr

/-- The dispatch loop of `convert_docx_to_html`: accumulate consecutive list
items, flush them through `_create_list_html` at the first non-list block (and
at the end), and collect the emitted fragments in order. -/
def processBlocks (cfg : Config) : List Block → List LItem → Option LKind → List String
  | [], buf, ctype =>
    if buf ≠ [] then [createListHtml buf ctype] else []
  | Block.para p :: rest, buf, ctype =>
    match getListInfo p with
    | some (listType, level, listText) =>
      let ctype2 := if ctype = none then some listType else ctype
      processBlocks cfg rest (buf ++ [⟨level, listType, listText⟩]) ctype2
    | none =>
      let flushed := if buf ≠ [] then [createListHtml buf ctype] else []
      let html := convertParagraph cfg p
      let parts := if html ≠ "" then flushed ++ [html] else flushed
      parts ++ processBlocks cfg rest [] none
  | Block.table rows :: rest, buf, ctype =>
    let flushed := if buf ≠ [] then [createListHtml buf ctype] else []
    let html := convertTable rows
    let parts := if html ≠ "" then flushed ++ [html] else flushed
    parts ++ processBlocks cfg rest [] none

/-! ### Post passes (`_apply_special_characters`, `_apply_replacements`) -/

/-- Normalization of the two accepted `special_characters` shapes into one
rule list (the legacy dict contributes `©`/`®` rules). -/
def buildCharConfigs (sc : SpecialCharsConfig) : List SpecialCharRule :=
  match sc with
  | .legacyDict copyrightSymbol registeredSymbol =>
    let l1 : List SpecialCharRule :=
      match copyrightSymbol with
      | some c =>
        if c.enabled.getD true then [⟨some "©", some (c.wrapTag.getD "sup"), some true⟩]
        else []
      | none => []
    let l2 : List SpecialCharRule :=
      match registeredSymbol with
      | some c =>
        if c.enabled.getD true then [⟨some "®", some (c.wrapTag.getD "sup"), some true⟩]
        else []
      | none => []
    l1 ++ l2
  | .modernList rules => rules

/-- One rule application inside `_apply_special_characters`. -/
def applySpecialCharRule (html : String) (rule : SpecialCharRule) : String :=
  if ¬ rule.enabled.getD true then html
  else
    let character := rule.character.getD ""
    let wrapTag := rule.wrapTag.getD "sup"
    if character = "" then html
    else pyReplace html character ("<" ++ wrapTag ++ ">" ++ character ++ "</" ++ wrapTag ++ ">")

/-- `_apply_special_characters`. -/
def applySpecialCharacters (cfg : Config) (html : String) : String :=
  (buildCharConfigs cfg.specialCharacters).foldl applySpecialCharRule html

/-- One rule application inside `_apply_replacements`: empty search terms are
skipped, otherwise a case-sensitive or case-insensitive literal replacement. -/
def applyReplacementRule (html : String) (r : ReplacementRule) : String :=
  let search := r.search.getD ""
  let replace := r.replace.getD ""
  let caseSensitive := r.caseSensitive.getD true
  if search = "" then html
  else if caseSensitive then pyReplace html search replace
  else pyIReplace html search replace

/-- `_apply_replacements`: the rules run strictly in list order, each over the
string produced by the previous ones. -/
def applyReplacements (cfg : Config) (html : String) : String :=
  cfg.replacements.foldl applyReplacementRule html

/-- `convert_docx_to_html` over an already-decoded block stream. -/
def convertDocxToHtml (cfg : Config) (blocks : List Block) : String :=
  applyReplacements cfg
    (applySpecialCharacters cfg
      (String.intercalate "\n" (processBlocks cfg blocks [] none)))

/-! ### A checker for matched, properly nested formatting tags

This is the formal reading of "the consolidated inline HTML never contains an
unmatched formatting tag": scanning the string left to right, every occurrence
of `<strong>`, `<em>`, `<u>`, `<a ...>` (and their closers) must nest like a
Dyck word.  A `<` that starts none of these tokens is ordinary text. -/

/-- The four formatting tags tracked by the checker. -/
inductive HTag where
  | strong
  | em
  | u
  | a
deriving DecidableEq, Repr

mutual
/-- Tag-balance scanner: walks the characters with a stack of open tags. -/
def scanTags : List Char → List HTag → Bool
  | [], st => st.isEmpty
  | c :: rest, st =>
    if c = '<' then
      if ['s','t','r','o','n','g','>'].isPrefixOf rest then
        scanTags (rest.drop 7) (HTag.strong :: st)
      else if ['/','s','t','r','o','n','g','>'].isPrefixOf rest then
        (if st.head? = some HTag.strong then scanTags (rest.drop 8) st.tail else false)
      else if ['e','m','>'].isPrefixOf rest then
        scanTags (rest.drop 3) (HTag.em :: st)
      else if ['/','e','m','>'].isPrefixOf rest then
        (if st.head? = some HTag.em then scanTags (rest.drop 4) st.tail else false)
      else if ['u','>'].isPrefixOf rest then
        scanTags (rest.drop 2) (HTag.u :: st)
      else if ['/','u','>'].isPrefixOf rest then
        (if st.head? = some HTag.u then scanTags (rest.drop 3) st.tail else false)
      else if ['a',' '].isPrefixOf rest then
        skipToGt (rest.drop 2) st
      else if ['/','a','>'].isPrefixOf rest then
        (if st.head? = some HTag.a then scanTags (rest.drop 3) st.tail else false)
      else scanTags rest st
    else scanTags rest st
termination_by cs _ => cs.length
decreasing_by all_goals (simp [List.length_drop]; try omega)

/-- Inside `<a ...`: skip to the closing `>` of the opening anchor tag, then
push the open `a`; an unterminated tag is unmatched. -/
def skipToGt : List Char → List HTag → Bool
  | [], _ => false
  | c :: rest, st => if c = '>' then scanTags rest (HTag.a :: st) else skipToGt rest st
termination_by cs _ => cs.length
decreasing_by all_goals (simp; try omega)
end

/-- Whether every formatting tag opened in `s` is closed, properly nested. -/
def tagBalanced (s : String) : Bool :=
  scanTags s.data []

/-- A character sequence is *transparent* when scanning through it leaves any
continuation and tag stack unchanged: it opens exactly the tags it closes,
properly nested. -/
def DBal (cs : List Char) : Prop :=
  ∀ rest st, scanTags (cs ++ rest) st = scanTags rest st

/-- Transparency of a string. -/
def Bal (s : String) : Prop :=
  DBal s.data

/-- A string that can appear verbatim inside the generated markup without
disturbing tag structure: it contains neither `<` nor `>`. -/
def cleanStr (s : String) : Prop :=
  '<' ∉ s.data ∧ '>' ∉ s.data

/-- Cleanliness of the URL and fallback text of a (possibly absent) open
hyperlink triple. -/
def CleanHyp : Option HypRef → Prop
  | none => True
  | some (_, hurl, htext) => cleanStr hurl ∧ cleanStr htext

/-- All spans of a paragraph have clean URLs and fallback texts. -/
def CleanSpans (spans : List Span) : Prop :=
  ∀ sp ∈ spans, cleanStr sp.url ∧ cleanStr sp.text

/-- The invariant carried through the `_process_runs` walk: every emitted
fragment is transparent, pending group text is markup-free, and the open
hyperlink data is clean. -/
structure GoodState (st : PRState) : Prop where
  result_bal : ∀ x ∈ st.result, Bal x
  hypText_bal : ∀ x ∈ st.hyperlinkText, Bal x
  group_clean : ∀ x ∈ st.group.text, '<' ∉ x.data
  cur_clean : CleanHyp st.currentHyperlink
  ghyp_clean : CleanHyp st.group.hyperlink

/-! ### Concrete inputs used by the claims -/

/-- The list-nesting example `[(0,Bullet,"A"),(1,Number,"B"),(1,Number,"C"),(0,Bullet,"D")]`. -/
def demoListItems : List LItem :=
  [⟨0, .bullet, "A"⟩, ⟨1, .number, "B"⟩, ⟨1, .number, "C"⟩, ⟨0, .bullet, "D"⟩]

/-- A level-jump buffer that starts at level 2 with no level-0/1 predecessor. -/
def jumpListItems : List LItem :=
  [⟨2, .bullet, "X"⟩, ⟨3, .number, "Y"⟩]

/-! ### Equivalence of `buildLoop` with its fuel twin -/

theorem buildLoopF_eq (items : List LItem) :
    ∀ (fuel : Nat) (currentLevel : Int) (i : Nat) (ctype : Option LKind) (acc : List String),
      items.length - i ≤ fuel →
      buildLoopF items fuel currentLevel i ctype acc
        = (buildLoop items currentLevel i ctype acc).val := by
  intro fuel
  induction fuel with
  | zero =>
    intro lvl i ctype acc hf
    have hi : ¬ i < items.length := by omega
    rw [buildLoop]
    simp only [buildLoopF, hi, dif_neg, not_false_iff]
  | succ fuel ih =>
    intro lvl i ctype acc hf
    rw [buildLoop]
    simp only [buildLoopF]
    by_cases hi : i < items.length
    · simp only [dif_pos hi]
      by_cases hlt : (items.get ⟨i, hi⟩).level < lvl
      · simp only [if_pos hlt]
      · simp only [if_neg hlt]
        by_cases heq : (items.get ⟨i, hi⟩).level = lvl
        · simp only [if_pos heq]
          by_cases h2 : i + 1 < items.length
          · simp only [dif_pos h2]
            by_cases hdeep : (items.get ⟨i + 1, h2⟩).level > (items.get ⟨i, hi⟩).level
            · simp only [if_pos hdeep]
              rcases hb : buildLoop items (items.get ⟨i + 1, h2⟩).level (i + 1) none []
                with ⟨⟨nestedHtml, nextI⟩, hn⟩
              have hn2 : i + 1 ≤ nextI := by simpa using hn
              have ih1 := ih (items.get ⟨i + 1, h2⟩).level (i + 1) none [] (by omega)
              rw [hb] at ih1
              dsimp only
              rw [ih1]
              dsimp only
              rcases hb2 : buildLoop items lvl nextI
                  (some (openedParts ctype (items.get ⟨i, hi⟩).kind acc).2)
                  ((openedParts ctype (items.get ⟨i, hi⟩).kind acc).1 ++
                    ["  <li>" ++ (items.get ⟨i, hi⟩).text, indentNested nestedHtml, "  </li>"])
                with ⟨r, hr⟩
              have ih2 := ih lvl nextI
                (some (openedParts ctype (items.get ⟨i, hi⟩).kind acc).2)
                ((openedParts ctype (items.get ⟨i, hi⟩).kind acc).1 ++
                  ["  <li>" ++ (items.get ⟨i, hi⟩).text, indentNested nestedHtml, "  </li>"])
                (by omega)
              rw [hb2] at ih2
              exact ih2
            · simp only [if_neg hdeep]
              rcases hb : buildLoop items lvl (i + 1)
                  (some (openedParts ctype (items.get ⟨i, hi⟩).kind acc).2)
                  ((openedParts ctype (items.get ⟨i, hi⟩).kind acc).1 ++
                    ["  <li>" ++ (items.get ⟨i, hi⟩).text ++ "</li>"])
                with ⟨r, hr⟩
              have ih1 := ih lvl (i + 1)
                (some (openedParts ctype (items.get ⟨i, hi⟩).kind acc).2)
                ((openedParts ctype (items.get ⟨i, hi⟩).kind acc).1 ++
                  ["  <li>" ++ (items.get ⟨i, hi⟩).text ++ "</li>"])
                (by omega)
              rw [hb] at ih1
              exact ih1
          · simp only [dif_neg h2]
            rcases hb : buildLoop items lvl (i + 1)
                (some (openedParts ctype (items.get ⟨i, hi⟩).kind acc).2)
                ((openedParts ctype (items.get ⟨i, hi⟩).kind acc).1 ++
                  ["  <li>" ++ (items.get ⟨i, hi⟩).text ++ "</li>"])
              with ⟨r, hr⟩
            have ih1 := ih lvl (i + 1)
              (some (openedParts ctype (items.get ⟨i, hi⟩).kind acc).2)
              ((openedParts ctype (items.get ⟨i, hi⟩).kind acc).1 ++
                ["  <li>" ++ (items.get ⟨i, hi⟩).text ++ "</li>"])
              (by omega)
            rw [hb] at ih1
            exact ih1
        · simp only [if_neg heq]
    · simp only [dif_neg hi]

/-! ### Stepping lemmas for the tag-balance scanner -/

theorem scanTags_nil (st : List HTag) : scanTags [] st = st.isEmpty := by
  rw [scanTags]

theorem scanTags_plain (c : Char) (hc : c ≠ '<') (rest : List Char) (st : List HTag) :
    scanTags (c :: rest) st = scanTags rest st := by
  rw [scanTags]; simp [hc]

theorem scanTags_open_strong (rest : List Char) (st : List HTag) :
    scanTags ('<' :: 's' :: 't' :: 'r' :: 'o' :: 'n' :: 'g' :: '>' :: rest) st
      = scanTags rest (HTag.strong :: st) := by
  rw [scanTags]; simp [List.isPrefixOf]

theorem scanTags_close_strong (rest : List Char) (st : List HTag) :
    scanTags ('<' :: '/' :: 's' :: 't' :: 'r' :: 'o' :: 'n' :: 'g' :: '>' :: rest)
        (HTag.strong :: st)
      = scanTags rest st := by
  rw [scanTags]; simp [List.isPrefixOf]

theorem scanTags_open_em (rest : List Char) (st : List HTag) :
    scanTags ('<' :: 'e' :: 'm' :: '>' :: rest) st = scanTags rest (HTag.em :: st) := by
  rw [scanTags]; simp [List.isPrefixOf]

theorem scanTags_close_em (rest : List Char) (st : List HTag) :
    scanTags ('<' :: '/' :: 'e' :: 'm' :: '>' :: rest) (HTag.em :: st) = scanTags rest st := by
  rw [scanTags]; simp [List.isPrefixOf]

theorem scanTags_open_u (rest : List Char) (st : List HTag) :
    scanTags ('<' :: 'u' :: '>' :: rest) st = scanTags rest (HTag.u :: st) := by
  rw [scanTags]; simp [List.isPrefixOf]

theorem scanTags_close_u (rest : List Char) (st : List HTag) :
    scanTags ('<' :: '/' :: 'u' :: '>' :: rest) (HTag.u :: st) = scanTags rest st := by
  rw [scanTags]; simp [List.isPrefixOf]

theorem scanTags_open_a (rest : List Char) (st : List HTag) :
    scanTags ('<' :: 'a' :: ' ' :: rest) st = skipToGt rest st := by
  rw [scanTags]; simp [List.isPrefixOf]

theorem scanTags_close_a (rest : List Char) (st : List HTag) :
    scanTags ('<' :: '/' :: 'a' :: '>' :: rest) (HTag.a :: st) = scanTags rest st := by
  rw [scanTags]; simp [List.isPrefixOf]

theorem skipToGt_through (mid : List Char) (hm : '>' ∉ mid) (rest : List Char)
    (st : List HTag) :
    skipToGt (mid ++ '>' :: rest) st = scanTags rest (HTag.a :: st) := by
  induction mid with
  | nil => simp [skipToGt]
  | cons c cs ih =>
    have hc : c ≠ '>' := by intro h; exact hm (h ▸ List.mem_cons_self c cs)
    rw [List.cons_append, skipToGt.eq_def]
    simp [hc]
    exact ih (fun h => hm (List.mem_cons_of_mem _ h))

/-! ### Transparency lemmas -/

theorem DBal_nil : DBal [] := by
  intro rest st
  rfl

theorem DBal_append {a b : List Char} (ha : DBal a) (hb : DBal b) : DBal (a ++ b) := by
  intro rest st
  rw [List.append_assoc, ha, hb]

theorem DBal_of_no_lt {cs : List Char} (h : '<' ∉ cs) : DBal cs := by
  induction cs with
  | nil => exact DBal_nil
  | cons c cs ih =>
    intro rest st
    have hc : c ≠ '<' := by intro he; exact h (he ▸ List.mem_cons_self c cs)
    rw [List.cons_append, scanTags_plain c hc]
    exact ih (fun hm => h (List.mem_cons_of_mem _ hm)) rest st

theorem Bal_of_no_lt {s : String} (h : '<' ∉ s.data) : Bal s :=
  DBal_of_no_lt h

theorem Bal_append {a b : String} (ha : Bal a) (hb : Bal b) : Bal (a ++ b) := by
  show DBal (a ++ b).data
  rw [String.data_append]
  exact DBal_append ha hb

theorem strJoin_cons (a : String) (l : List String) :
    String.join (a :: l) = a ++ String.join l := by
  have key : ∀ (l : List String) (x : String),
      List.foldl (· ++ ·) x l = x ++ List.foldl (· ++ ·) "" l := by
    intro l
    induction l with
    | nil =>
      intro x
      simp [List.foldl]
    | cons b l ih =>
      intro x
      simp only [List.foldl]
      rw [ih (x ++ b), ih ("" ++ b)]
      simp [String.append_assoc]
  show List.foldl (· ++ ·) ("" ++ a) l = a ++ List.foldl (· ++ ·) "" l
  rw [key l ("" ++ a)]
  simp

theorem Bal_join {l : List String} (h : ∀ x ∈ l, Bal x) : Bal (String.join l) := by
  induction l with
  | nil => exact DBal_nil
  | cons a l ih =>
    rw [strJoin_cons]
    exact Bal_append (h a (List.mem_cons_self a l))
      (ih (fun x hx => h x (List.mem_cons_of_mem _ hx)))

theorem no_lt_join {l : List String} (h : ∀ x ∈ l, '<' ∉ x.data) :
    '<' ∉ (String.join l).data := by
  induction l with
  | nil => simp [String.join, List.foldl]
  | cons a l ih =>
    rw [strJoin_cons, String.data_append]
    intro hm
    rcases List.mem_append.mp hm with hm | hm
    · exact h a (List.mem_cons_self a l) hm
    · exact ih (fun x hx => h x (List.mem_cons_of_mem _ hx)) hm

theorem Bal_wrap_u {t : String} (ht : Bal t) : Bal ("<u>" ++ t ++ "</u>") := by
  intro rest st
  show scanTags (("<u>" ++ t ++ "</u>").data ++ rest) st = scanTags rest st
  rw [String.data_append, String.data_append]
  have h1 : ("<u>" : String).data = ['<', 'u', '>'] := rfl
  have h2 : ("</u>" : String).data = ['<', '/', 'u', '>'] := rfl
  rw [h1, h2]
  show scanTags ('<' :: 'u' :: '>' :: (t.data ++ ['<', '/', 'u', '>']) ++ rest) st
      = scanTags rest st
  rw [List.cons_append, List.cons_append, List.cons_append, scanTags_open_u,
    List.append_assoc]
  rw [ht (['<', '/', 'u', '>'] ++ rest) (HTag.u :: st)]
  show scanTags ('<' :: '/' :: 'u' :: '>' :: rest) (HTag.u :: st) = scanTags rest st
  exact scanTags_close_u rest st

theorem Bal_wrap_em {t : String} (ht : Bal t) : Bal ("<em>" ++ t ++ "</em>") := by
  intro rest st
  show scanTags (("<em>" ++ t ++ "</em>").data ++ rest) st = scanTags rest st
  rw [String.data_append, String.data_append]
  have h1 : ("<em>" : String).data = ['<', 'e', 'm', '>'] := rfl
  have h2 : ("</em>" : String).data = ['<', '/', 'e', 'm', '>'] := rfl
  rw [h1, h2]
  show scanTags ('<' :: 'e' :: 'm' :: '>' :: (t.data ++ ['<', '/', 'e', 'm', '>']) ++ rest) st
      = scanTags rest st
  rw [List.cons_append, List.cons_append, List.cons_append, List.cons_append,
    scanTags_open_em, List.append_assoc]
  rw [ht (['<', '/', 'e', 'm', '>'] ++ rest) (HTag.em :: st)]
  show scanTags ('<' :: '/' :: 'e' :: 'm' :: '>' :: rest) (HTag.em :: st) = scanTags rest st
  exact scanTags_close_em rest st

theorem Bal_wrap_strong {t : String} (ht : Bal t) :
    Bal ("<strong>" ++ t ++ "</strong>") := by
  intro rest st
  show scanTags (("<strong>" ++ t ++ "</strong>").data ++ rest) st = scanTags rest st
  rw [String.data_append, String.data_append]
  have h1 : ("<strong>" : String).data = ['<', 's', 't', 'r', 'o', 'n', 'g', '>'] := rfl
  have h2 : ("</strong>" : String).data = ['<', '/', 's', 't', 'r', 'o', 'n', 'g', '>'] := rfl
  rw [h1, h2]
  show scanTags
      ('<' :: 's' :: 't' :: 'r' :: 'o' :: 'n' :: 'g' :: '>'
        :: (t.data ++ ['<', '/', 's', 't', 'r', 'o', 'n', 'g', '>']) ++ rest) st
      = scanTags rest st
  rw [List.cons_append, List.cons_append, List.cons_append, List.cons_append,
    List.cons_append, List.cons_append, List.cons_append, List.cons_append,
    scanTags_open_strong, List.append_assoc]
  rw [ht (['<', '/', 's', 't', 'r', 'o', 'n', 'g', '>'] ++ rest) (HTag.strong :: st)]
  show scanTags ('<' :: '/' :: 's' :: 't' :: 'r' :: 'o' :: 'n' :: 'g' :: '>' :: rest)
      (HTag.strong :: st) = scanTags rest st
  exact scanTags_close_strong rest st

theorem Bal_applyFmt (b i u : Option Bool) {t : String} (ht : Bal t) :
    Bal (applyFmt b i u t) := by
  show Bal (if b = some true then
      "<strong>" ++ (if i = some true then
        "<em>" ++ (if u = some true then "<u>" ++ t ++ "</u>" else t) ++ "</em>"
        else (if u = some true then "<u>" ++ t ++ "</u>" else t)) ++ "</strong>"
    else (if i = some true then
        "<em>" ++ (if u = some true then "<u>" ++ t ++ "</u>" else t) ++ "</em>"
        else (if u = some true then "<u>" ++ t ++ "</u>" else t)))
  have h1 : Bal (if u = some true then "<u>" ++ t ++ "</u>" else t) := by
    split
    · exact Bal_wrap_u ht
    · exact ht
  have h2 : Bal (if i = some true then
      "<em>" ++ (if u = some true then "<u>" ++ t ++ "</u>" else t) ++ "</em>"
      else (if u = some true then "<u>" ++ t ++ "</u>" else t)) := by
    split
    · exact Bal_wrap_em h1
    · exact h1
  split
  · exact Bal_wrap_strong h2
  · exact h2

theorem Bal_formatLink {url t : String} (hurl : '>' ∉ url.data) (ht : Bal t) :
    Bal (formatLink url t) := by
  intro rest st
  show scanTags ((formatLink url t).data ++ rest) st = scanTags rest st
  unfold formatLink
  have hshape : (("<a href=\"" ++ url ++ "\">" ++ t ++ "</a>").data ++ rest)
      = '<' :: 'a' :: ' '
        :: ((['h', 'r', 'e', 'f', '=', '"'] ++ url.data ++ ['"'])
          ++ '>' :: (t.data ++ ('<' :: '/' :: 'a' :: '>' :: rest))) := by
    simp [String.data_append]
  rw [hshape, scanTags_open_a]
  have hmid : '>' ∉ (['h', 'r', 'e', 'f', '=', '"'] ++ url.data ++ ['"']) := by
    intro hm
    rcases List.mem_append.mp hm with hm | hm
    · rcases List.mem_append.mp hm with hm | hm
      · simp at hm
      · exact hurl hm
    · simp at hm
  rw [skipToGt_through _ hmid]
  rw [ht ('<' :: '/' :: 'a' :: '>' :: rest) (HTag.a :: st)]
  exact scanTags_close_a rest st

theorem tagBalanced_of_Bal {s : String} (h : Bal s) : tagBalanced s = true := by
  unfold tagBalanced
  have := h [] []
  rw [List.append_nil] at this
  rw [this, scanTags_nil]
  rfl

/-! ### The escaper removes every `<` -/

theorem pyRepFuel_single_no_mem (p : Char) (rep : List Char) (hrep : p ∉ rep) :
    ∀ (fuel : Nat) (cs : List Char), cs.length ≤ fuel → p ∉ pyRepFuel [p] rep fuel cs := by
  intro fuel
  induction fuel with
  | zero =>
    intro cs hcs
    have : cs = [] := List.eq_nil_of_length_eq_zero (by omega)
    subst this
    simp [pyRepFuel]
  | succ fuel ih =>
    intro cs hcs
    cases cs with
    | nil => simp [pyRepFuel]
    | cons c cs =>
      simp only [pyRepFuel]
      by_cases hpc : p = c
      · have hcond : ([p] ≠ [] ∧ [p].isPrefixOf (c :: cs)) := by
          refine ⟨by simp, ?_⟩
          simp [List.isPrefixOf, hpc]
        rw [if_pos hcond]
        intro hm
        rcases List.mem_append.mp hm with hm | hm
        · exact hrep hm
        · have hdrop : ((c :: cs).drop ([p].length)) = cs := by simp
          rw [hdrop] at hm
          simp only [List.length_cons] at hcs
          exact ih cs (by omega) hm
      · have hcond : ¬ ([p] ≠ [] ∧ [p].isPrefixOf (c :: cs)) := by
          intro hco
          have := hco.2
          simp [List.isPrefixOf] at this
          exact hpc this
        rw [if_neg hcond]
        intro hm
        rcases List.mem_cons.mp hm with hm | hm
        · exact hpc hm
        · simp only [List.length_cons] at hcs
          exact ih cs (by omega) hm

theorem pyRepFuel_no_mem_preserve (x : Char) (pat rep : List Char) (hrep : x ∉ rep) :
    ∀ (fuel : Nat) (cs : List Char), x ∉ cs → x ∉ pyRepFuel pat rep fuel cs := by
  intro fuel
  induction fuel with
  | zero =>
    intro cs hcs
    cases cs with
    | nil => simp [pyRepFuel]
    | cons c cs => simp only [pyRepFuel]; exact hcs
  | succ fuel ih =>
    intro cs hcs
    cases cs with
    | nil => simp [pyRepFuel]
    | cons c cs =>
      simp only [pyRepFuel]
      by_cases hcond : (pat ≠ [] ∧ pat.isPrefixOf (c :: cs))
      · rw [if_pos hcond]
        intro hm
        rcases List.mem_append.mp hm with hm | hm
        · exact hrep hm
        · exact ih _ (fun hmm => hcs (List.drop_subset _ _ hmm)) hm
      · rw [if_neg hcond]
        intro hm
        rcases List.mem_cons.mp hm with hm | hm
        · exact hcs (hm ▸ List.mem_cons_self c cs)
        · exact ih cs (fun hmm => hcs (List.mem_cons_of_mem _ hmm)) hm

theorem escapeHtml_no_lt (s : String) : '<' ∉ (escapeHtml s).data := by
  show '<' ∉ (pyReplace (pyReplace (pyReplace (pyReplace
      (pyReplace s "&" "&amp;") "<" "&lt;") ">" "&gt;") "\"" "&quot;") "\x27" "&#39;").data
  have h2 : '<' ∉ (pyReplace (pyReplace s "&" "&amp;") "<" "&lt;").data := by
    show '<' ∉ pyRepFuel ['<'] "&lt;".data
      (pyReplace s "&" "&amp;").data.length (pyReplace s "&" "&amp;").data
    exact pyRepFuel_single_no_mem '<' "&lt;".data (by decide) _ _ (Nat.le_refl _)
  have h3 : '<' ∉ (pyReplace (pyReplace (pyReplace s "&" "&amp;") "<" "&lt;") ">" "&gt;").data :=
    pyRepFuel_no_mem_preserve '<' ">".data "&gt;".data (by decide) _ _ h2
  have h4 : '<' ∉ (pyReplace (pyReplace (pyReplace (pyReplace
      s "&" "&amp;") "<" "&lt;") ">" "&gt;") "\"" "&quot;").data :=
    pyRepFuel_no_mem_preserve '<' "\"".data "&quot;".data (by decide) _ _ h3
  exact pyRepFuel_no_mem_preserve '<' "\x27".data "&#39;".data (by decide) _ _ h4

/-! ### Preservation of the walk invariant -/

theorem good_init : GoodState initPRState := by
  constructor <;> simp [initPRState, initGroup, CleanHyp]

theorem good_setProcessed {st : PRState} (h : GoodState st) (pr : List String) :
    GoodState { st with processed := pr } :=
  ⟨h.result_bal, h.hypText_bal, h.group_clean, h.cur_clean, h.ghyp_clean⟩

theorem good_setCur {st : PRState} (h : GoodState st) {rh : Option HypRef}
    (hrh : CleanHyp rh) : GoodState { st with currentHyperlink := rh } :=
  ⟨h.result_bal, h.hypText_bal, h.group_clean, hrh, h.ghyp_clean⟩

theorem good_group_set {st : PRState} (h : GoodState st) (b i u : Option Bool)
    {rh : Option HypRef} (hrh : CleanHyp rh) :
    GoodState { st with group := ⟨st.group.text, b, i, u, rh⟩ } :=
  ⟨h.result_bal, h.hypText_bal, h.group_clean, h.cur_clean, hrh⟩

theorem good_group_append {st : PRState} (h : GoodState st) {e : String}
    (he : '<' ∉ e.data) :
    GoodState { st with group := { st.group with text := st.group.text ++ [e] } } := by
  refine ⟨h.result_bal, h.hypText_bal, ?_, h.cur_clean, h.ghyp_clean⟩
  intro x hx
  rcases List.mem_append.mp hx with hx | hx
  · exact h.group_clean x hx
  · rw [List.mem_singleton.mp hx]
    exact he

theorem good_flush {st : PRState} (h : GoodState st) : GoodState (flushGroup st) := by
  unfold flushGroup
  by_cases hempty : st.group.text = []
  · rw [if_pos hempty]; exact h
  · rw [if_neg hempty]
    have hfmt : Bal (applyFmt st.group.bold st.group.italic st.group.underline
        (String.join st.group.text)) :=
      Bal_applyFmt _ _ _ (Bal_of_no_lt (no_lt_join h.group_clean))
    by_cases hh : st.group.hyperlink.isSome
    · rw [if_pos hh]
      refine ⟨h.result_bal, ?_, by simp, h.cur_clean, h.ghyp_clean⟩
      intro x hx
      rcases List.mem_append.mp hx with hx | hx
      · exact h.hypText_bal x hx
      · rw [List.mem_singleton.mp hx]; exact hfmt
    · rw [if_neg hh]
      refine ⟨?_, h.hypText_bal, by simp, h.cur_clean, h.ghyp_clean⟩
      intro x hx
      rcases List.mem_append.mp hx with hx | hx
      · exact h.result_bal x hx
      · rw [List.mem_singleton.mp hx]; exact hfmt

theorem good_close {st : PRState} (h : GoodState st) : GoodState (closeHyperlink st) := by
  unfold closeHyperlink
  rcases hcur : st.currentHyperlink with - | ⟨hid, hurl, htext⟩
  · exact h
  · have hcc := h.cur_clean
    rw [hcur] at hcc
    simp only [CleanHyp] at hcc
    dsimp only
    by_cases hht : st.hyperlinkText ≠ []
    · rw [if_pos hht]
      refine ⟨?_, by simp, h.group_clean, hcc, h.ghyp_clean⟩
      intro x hx
      rcases List.mem_append.mp hx with hx | hx
      · exact h.result_bal x hx
      · rw [List.mem_singleton.mp hx]
        exact Bal_formatLink hcc.1.2 (Bal_join h.hypText_bal)
    · rw [if_neg hht]
      refine ⟨?_, by simp, h.group_clean, hcc, h.ghyp_clean⟩
      intro x hx
      rcases List.mem_append.mp hx with hx | hx
      · exact h.result_bal x hx
      · rw [List.mem_singleton.mp hx]
        refine Bal_formatLink hcc.1.2 ?_
        by_cases hne : htext ≠ ""
        · rw [if_pos hne]; exact Bal_of_no_lt hcc.2.1
        · rw [if_neg hne]; exact Bal_of_no_lt hcc.1.1

theorem lookup_clean (spans : List Span) (hs : CleanSpans spans) (rid : Nat) :
    CleanHyp (lookupHyp spans rid) := by
  cases hf : spans.find? (fun sp => sp.runIds.contains rid) with
  | none =>
    unfold lookupHyp
    rw [hf]
    simp [CleanHyp]
  | some sp =>
    unfold lookupHyp
    rw [hf]
    have hmem := List.mem_of_find?_eq_some hf
    exact ⟨(hs sp hmem).1, (hs sp hmem).2⟩

theorem no_lt_escaped (c : Prop) [Decidable c] (t : String) :
    '<' ∉ (if c then "" else escapeHtml t).data := by
  split
  · simp
  · exact escapeHtml_no_lt t

theorem good_ite (c : Prop) [Decidable c] {x y : PRState} (hx : GoodState x)
    (hy : GoodState y) : GoodState (if c then x else y) := by
  split
  · exact hx
  · exact hy

theorem good_step (spans : List Span) (hs : CleanSpans spans) {st : PRState}
    (h : GoodState st) (run : Run) : GoodState (stepRun spans st run) := by
  have hrh := lookup_clean spans hs run.rid
  unfold stepRun
  cases hopt : lookupHyp spans run.rid with
  | none =>
    rw [hopt] at hrh
    simp only [hopt]
    refine good_ite _ h
      (good_group_append
        (good_ite _ (good_group_set ?g3 _ _ _ hrh) ?g3)
        (no_lt_escaped _ _))
    case g3 =>
      refine good_ite _ (good_flush ?g4) ?g4
      case g4 =>
        exact good_ite _ (good_setCur (good_close (good_flush h)) hrh)
          (good_ite _ (good_setCur (good_close (good_flush h)) trivial) h)
  | some trip =>
    rw [hopt] at hrh
    simp only [hopt]
    obtain ⟨tid, turl, ttext⟩ := trip
    have h0 : GoodState { st with processed := st.processed ++ [tid] } :=
      good_setProcessed h (st.processed ++ [tid])
    refine good_ite _ h0
      (good_group_append
        (good_ite _ (good_group_set ?g3 _ _ _ hrh) ?g3)
        (no_lt_escaped _ _))
    case g3 =>
      refine good_ite _ (good_flush ?g4) ?g4
      case g4 =>
        exact good_ite _ (good_setCur (good_close (good_flush h0)) hrh)
          (good_ite _ (good_setCur (good_close (good_flush h0)) trivial) h0)

theorem good_fold (spans : List Span) (hs : CleanSpans spans) (runs : List Run) :
    ∀ {st : PRState}, GoodState st → GoodState (runs.foldl (stepRun spans) st) := by
  induction runs with
  | nil => intro st h; exact h
  | cons run runs ih =>
    intro st h
    exact ih (good_step spans hs h run)

theorem tail_fold_bal (P : List String) :
    ∀ (sps : List Span), CleanSpans sps → ∀ (acc : List String), (∀ x ∈ acc, Bal x) →
      ∀ x ∈ List.foldl
        (fun a sp =>
          if ¬ sp.id ∈ P ∧ sp.text ≠ "" then a ++ [" ", formatLink sp.url sp.text] else a)
        acc sps, Bal x := by
  intro sps
  induction sps with
  | nil => intro _ acc hacc x hx; exact hacc x hx
  | cons sp sps ih =>
    intro hs acc hacc x hx
    rw [List.foldl_cons] at hx
    refine ih (fun q hq => hs q (List.mem_cons_of_mem _ hq)) _ ?_ x hx
    intro y hy
    split at hy
    · rcases List.mem_append.mp hy with hy | hy
      · exact hacc y hy
      · have hsp := hs sp (List.mem_cons_self sp sps)
        rcases List.mem_cons.mp hy with hy | hy
        · rw [hy]
          exact Bal_of_no_lt (by decide)
        · rw [List.mem_singleton.mp hy]
          exact Bal_formatLink hsp.1.2 (Bal_of_no_lt hsp.2.1)
    · exact hacc y hy

theorem finalize_balanced (spans : List Span) (hs : CleanSpans spans) {st : PRState}
    (hst : GoodState st) : tagBalanced (finalizeRuns spans st) = true := by
  have h2 : GoodState (closeHyperlink (flushGroup st)) := good_close (good_flush hst)
  unfold finalizeRuns
  apply tagBalanced_of_Bal
  apply Bal_join
  intro x hx
  rcases List.mem_append.mp hx with hx | hx
  · exact h2.result_bal x hx
  · exact tail_fold_bal _ spans hs [] (by simp) x hx

theorem processRuns_balanced (runs : List Run) (spans : List Span)
    (hs : CleanSpans spans) : tagBalanced (processRuns runs spans) = true :=
  finalize_balanced spans hs (good_fold spans hs runs good_init)

/-! ### Walks that never touch a hyperlink span -/

theorem lookup_nil (rid : Nat) : lookupHyp [] rid = none := rfl

theorem lookup_none_of_no_member (spans : List Span) (rid : Nat)
    (h : ∀ sp ∈ spans, rid ∉ sp.runIds) : lookupHyp spans rid = none := by
  unfold lookupHyp
  have hf : spans.find? (fun sp => sp.runIds.contains rid) = none := by
    rw [List.find?_eq_none]
    intro sp hsp
    simpa using h sp hsp
  rw [hf]

theorem stepRun_nil_spans (spans : List Span) (st : PRState) (run : Run)
    (hn : lookupHyp spans run.rid = none) :
    stepRun spans st run = stepRun [] st run := by
  unfold stepRun
  rw [hn, lookup_nil]

theorem flushGroup_processed (st : PRState) :
    (flushGroup st).processed = st.processed := by
  unfold flushGroup
  split
  · rfl
  · split <;> rfl

theorem closeHyperlink_processed (st : PRState) :
    (closeHyperlink st).processed = st.processed := by
  unfold closeHyperlink
  rcases st.currentHyperlink with - | ⟨a, b, c⟩
  · rfl
  · dsimp only
    split
    · rfl
    · rfl

theorem flushGroup_result_hyp (st : PRState) :
    (flushGroup st).currentHyperlink = st.currentHyperlink := by
  unfold flushGroup
  split
  · rfl
  · split <;> rfl

theorem stepRun_nil_processed (st : PRState) (run : Run) :
    (stepRun [] st run).processed = st.processed := by
  unfold stepRun
  rw [lookup_nil]
  dsimp only
  split
  · rfl
  · simp [apply_ite PRState.processed, flushGroup_processed, closeHyperlink_processed]

theorem foldl_stepRun_eq_nil (spans : List Span) (runs : List Run)
    (hnm : ∀ sp ∈ spans, ∀ r ∈ runs, r.rid ∉ sp.runIds) :
    ∀ st, runs.foldl (stepRun spans) st = runs.foldl (stepRun []) st := by
  induction runs with
  | nil => intro st; rfl
  | cons run runs ih =>
    intro st
    rw [List.foldl_cons, List.foldl_cons]
    rw [stepRun_nil_spans spans st run
      (lookup_none_of_no_member spans run.rid
        (fun sp hsp => hnm sp hsp run (List.mem_cons_self run runs)))]
    exact ih (fun sp hsp r hr => hnm sp hsp r (List.mem_cons_of_mem _ hr)) _

theorem foldl_nil_processed (runs : List Run) :
    ∀ st, (runs.foldl (stepRun []) st).processed = st.processed := by
  induction runs with
  | nil => intro st; rfl
  | cons run runs ih =>
    intro st
    rw [List.foldl_cons, ih, stepRun_nil_processed]

theorem strJoin_append (a b : List String) :
    String.join (a ++ b) = String.join a ++ String.join b := by
  induction a with
  | nil => simp [String.join, List.foldl, String.empty_append]
  | cons x a ih =>
    rw [List.cons_append, strJoin_cons, strJoin_cons, ih, String.append_assoc]

theorem tail_join_nilP : ∀ (spans : List Span) (acc : List String),
    String.join (List.foldl
      (fun a sp =>
        if ¬ sp.id ∈ ([] : List String) ∧ sp.text ≠ "" then
          a ++ [" ", formatLink sp.url sp.text]
        else a)
      acc spans)
    = String.join acc
      ++ String.join ((spans.filter (fun sp => sp.text ≠ "")).map
          (fun sp => " " ++ formatLink sp.url sp.text)) := by
  intro spans
  induction spans with
  | nil =>
    intro acc
    simp [String.append_empty, String.join, List.foldl]
  | cons sp sps ih =>
    intro acc
    rw [List.foldl_cons]
    by_cases hsp : sp.text = ""
    · have hc : ¬ (¬ sp.id ∈ ([] : List String) ∧ sp.text ≠ "") := by
        intro hco; exact hco.2 hsp
      rw [if_neg hc, ih]
      have hfil : (sp :: sps).filter (fun sp => sp.text ≠ "")
          = sps.filter (fun sp => sp.text ≠ "") := by
        rw [List.filter_cons]
        simp [hsp]
      rw [hfil]
    · have hc : (¬ sp.id ∈ ([] : List String) ∧ sp.text ≠ "") := ⟨by simp, hsp⟩
      rw [if_pos hc, ih]
      have hfil : (sp :: sps).filter (fun sp => sp.text ≠ "")
          = sp :: sps.filter (fun sp => sp.text ≠ "") := by
        rw [List.filter_cons]
        simp [hsp]
      rw [hfil, List.map_cons, strJoin_cons, strJoin_append]
      rw [strJoin_cons, strJoin_cons]
      simp [String.join, List.foldl, String.append_empty, String.append_assoc]

theorem finalizeRuns_split (spans : List Span) (st : PRState)
    (hproc : st.processed = []) :
    finalizeRuns spans st
      = finalizeRuns [] st
        ++ String.join ((spans.filter (fun sp => sp.text ≠ "")).map
            (fun sp => " " ++ formatLink sp.url sp.text)) := by
  have hp2 : (closeHyperlink (flushGroup st)).processed = [] := by
    rw [closeHyperlink_processed, flushGroup_processed, hproc]
  unfold finalizeRuns
  dsimp only
  simp only [hp2]
  rw [List.foldl_nil, List.append_nil, strJoin_append, tail_join_nilP spans []]
  have hnil : String.join ([] : List String) = "" := rfl
  rw [hnil, String.empty_append]

theorem processRuns_unvisited (runs : List Run) (spans : List Span)
    (hnm : ∀ sp ∈ spans, ∀ r ∈ runs, r.rid ∉ sp.runIds) :
    processRuns runs spans
      = processRuns runs []
        ++ String.join ((spans.filter (fun sp => sp.text ≠ "")).map
            (fun sp => " " ++ formatLink sp.url sp.text)) := by
  unfold processRuns
  rw [foldl_stepRun_eq_nil spans runs hnm initPRState]
  exact finalizeRuns_split spans _ (by rw [foldl_nil_processed]; rfl)

/-! ### Consolidation of a constant-signature run sequence -/

theorem stepRun_nil_init (run : Run) :
    stepRun [] initPRState run
      = if run.text = "" then initPRState
        else ⟨[], none, [], [],
          ⟨[escapeHtml run.text], some run.bold, some run.italic, some run.underline, none⟩⟩ := by
  by_cases ht : run.text = ""
  · rw [if_pos ht]
    unfold stepRun
    rw [lookup_nil]
    simp [ht]
  · rw [if_neg ht]
    unfold stepRun
    rw [lookup_nil]
    simp [ht, initPRState, initGroup, flushGroup]

theorem stepRun_nil_const (run : Run) (ts : List String) (hts : ts ≠ []) :
    stepRun []
        ⟨[], none, [], [],
          ⟨ts, some run.bold, some run.italic, some run.underline, none⟩⟩ run
      = if run.text = "" then
          ⟨[], none, [], [],
            ⟨ts, some run.bold, some run.italic, some run.underline, none⟩⟩
        else
          ⟨[], none, [], [],
            ⟨ts ++ [escapeHtml run.text], some run.bold, some run.italic,
              some run.underline, none⟩⟩ := by
  by_cases ht : run.text = ""
  · rw [if_pos ht]
    unfold stepRun
    rw [lookup_nil]
    simp [ht]
  · rw [if_neg ht]
    unfold stepRun
    rw [lookup_nil]
    simp [ht, hts]

theorem foldl_nil_const (runs : List Run) (b i u : Bool)
    (hflags : ∀ r ∈ runs, r.bold = b ∧ r.italic = i ∧ r.underline = u) :
    ∀ ts, ts ≠ [] →
    runs.foldl (stepRun []) ⟨[], none, [], [], ⟨ts, some b, some i, some u, none⟩⟩
      = ⟨[], none, [], [],
          ⟨ts ++ (runs.filter (fun r => r.text ≠ "")).map (fun r => escapeHtml r.text),
            some b, some i, some u, none⟩⟩ := by
  induction runs with
  | nil =>
    intro ts hts
    simp
  | cons run runs ih =>
    intro ts hts
    obtain ⟨hb, hi2, hu2⟩ := hflags run (List.mem_cons_self run runs)
    have hflags2 : ∀ r ∈ runs, r.bold = b ∧ r.italic = i ∧ r.underline = u :=
      fun r hr => hflags r (List.mem_cons_of_mem _ hr)
    subst hb hi2 hu2
    rw [List.foldl_cons, stepRun_nil_const run ts hts]
    by_cases ht : run.text = ""
    · rw [if_pos ht, ih hflags2 ts hts]
      have hfil : (run :: runs).filter (fun r => r.text ≠ "")
          = runs.filter (fun r => r.text ≠ "") := by
        rw [List.filter_cons]; simp [ht]
      rw [hfil]
    · rw [if_neg ht, ih hflags2 (ts ++ [escapeHtml run.text]) (by simp)]
      have hfil : (run :: runs).filter (fun r => r.text ≠ "")
          = run :: runs.filter (fun r => r.text ≠ "") := by
        rw [List.filter_cons]; simp [ht]
      rw [hfil, List.map_cons, List.append_assoc, List.singleton_append]

theorem foldl_nil_init (runs : List Run) (b i u : Bool)
    (hflags : ∀ r ∈ runs, r.bold = b ∧ r.italic = i ∧ r.underline = u) :
    runs.foldl (stepRun []) initPRState
      = if runs.filter (fun r => r.text ≠ "") = [] then initPRState
        else ⟨[], none, [], [],
          ⟨(runs.filter (fun r => r.text ≠ "")).map (fun r => escapeHtml r.text),
            some b, some i, some u, none⟩⟩ := by
  induction runs with
  | nil => simp
  | cons run runs ih =>
    obtain ⟨hb, hi2, hu2⟩ := hflags run (List.mem_cons_self run runs)
    have hflags2 : ∀ r ∈ runs, r.bold = b ∧ r.italic = i ∧ r.underline = u :=
      fun r hr => hflags r (List.mem_cons_of_mem _ hr)
    subst hb hi2 hu2
    rw [List.foldl_cons, stepRun_nil_init run]
    by_cases ht : run.text = ""
    · rw [if_pos ht, ih hflags2]
      have hfil : (run :: runs).filter (fun r => r.text ≠ "")
          = runs.filter (fun r => r.text ≠ "") := by
        rw [List.filter_cons]; simp [ht]
      rw [hfil]
    · rw [if_neg ht]
      rw [foldl_nil_const runs run.bold run.italic run.underline hflags2
        [escapeHtml run.text] (by simp)]
      have hfil : (run :: runs).filter (fun r => r.text ≠ "")
          = run :: runs.filter (fun r => r.text ≠ "") := by
        rw [List.filter_cons]; simp [ht]
      rw [hfil]
      rw [if_neg (by simp)]
      rw [List.map_cons, List.singleton_append]

theorem finalize_nil_init : finalizeRuns [] initPRState = "" := rfl

theorem finalize_nil_const (b i u : Bool) (ts : List String) (hts : ts ≠ []) :
    finalizeRuns [] ⟨[], none, [], [], ⟨ts, some b, some i, some u, none⟩⟩
      = applyFmt (some b) (some i) (some u) (String.join ts) := by
  unfold finalizeRuns flushGroup closeHyperlink
  simp [hts, String.join, String.append_empty, String.empty_append]

theorem escapeHtml_empty : escapeHtml "" = "" := rfl

theorem join_map_escape_filter (runs : List Run) :
    String.join ((runs.filter (fun r => r.text ≠ "")).map (fun r => escapeHtml r.text))
      = String.join (runs.map (fun r => escapeHtml r.text)) := by
  induction runs with
  | nil => rfl
  | cons run runs ih =>
    by_cases ht : run.text = ""
    · have hfil : (run :: runs).filter (fun r => r.text ≠ "")
          = runs.filter (fun r => r.text ≠ "") := by
        rw [List.filter_cons]; simp [ht]
      rw [hfil, ih, List.map_cons, strJoin_cons, ht, escapeHtml_empty,
        String.empty_append]
    · have hfil : (run :: runs).filter (fun r => r.text ≠ "")
          = run :: runs.filter (fun r => r.text ≠ "") := by
        rw [List.filter_cons]; simp [ht]
      rw [hfil, List.map_cons, List.map_cons, strJoin_cons, strJoin_cons, ih]

theorem processRuns_nil_const (runs : List Run) (b i u : Bool)
    (hflags : ∀ r ∈ runs, r.bold = b ∧ r.italic = i ∧ r.underline = u) :
    processRuns runs []
      = if runs.filter (fun r => r.text ≠ "") = [] then ""
        else applyFmt (some b) (some i) (some u)
          (String.join (runs.map (fun r => escapeHtml r.text))) := by
  unfold processRuns
  rw [foldl_nil_init runs b i u hflags]
  by_cases hfil : runs.filter (fun r => r.text ≠ "") = []
  · rw [if_pos hfil, if_pos hfil, finalize_nil_init]
  · rw [if_neg hfil, if_neg hfil,
      finalize_nil_const b i u _ (by simpa using hfil),
      join_map_escape_filter]

/-! ### Evaluation form of `createListHtml` -/

theorem createListHtml_evalF (it0 : LItem) (rest : List LItem) (lt : Option LKind) :
    createListHtml (it0 :: rest) lt
      = (buildLoopF (it0 :: rest) (it0 :: rest).length
          ((rest.map LItem.level).foldl min it0.level) 0 none []).1 := by
  simp only [createListHtml, buildNestedList]
  have h0 : ¬ (0 ≥ (it0 :: rest).length) := by simp
  rw [if_neg h0]
  rw [← buildLoopF_eq (it0 :: rest) (it0 :: rest).length _ 0 none [] (by omega)]

/-! ### The claims -/

/-- C1: a paragraph whose runs all share the same (bold, italic, underline)
flags and belong to no hyperlink span consolidates into a single merged tag
group around the concatenated escaped text — not one group per run — followed
only by the unvisited-span tail; in particular
`[("Hello ", bold), ("World", bold)]` yields `<strong>Hello World</strong>`. -/
theorem claim_C1 (runs : List Run) (spans : List Span) (b i u : Bool)
    (hflags : ∀ r ∈ runs, r.bold = b ∧ r.italic = i ∧ r.underline = u)
    (hnm : ∀ sp ∈ spans, ∀ r ∈ runs, r.rid ∉ sp.runIds) :
    processRuns runs spans
      = (if runs.filter (fun r => r.text ≠ "") = [] then ""
         else applyFmt (some b) (some i) (some u)
           (String.join (runs.map (fun r => escapeHtml r.text))))
        ++ String.join ((spans.filter (fun sp => sp.text ≠ "")).map
            (fun sp => " " ++ formatLink sp.url sp.text)) := by
  rw [processRuns_unvisited runs spans hnm, processRuns_nil_const runs b i u hflags]

/-- C1 witness: the `Hello World` example, via `claim_C1`. -/
theorem claim_C1_witness :
    processRuns [⟨0, "Hello ", true, false, false⟩, ⟨1, "World", true, false, false⟩] []
      = "<strong>Hello World</strong>" := by
  have h := claim_C1
    [⟨0, "Hello ", true, false, false⟩, ⟨1, "World", true, false, false⟩]
    [] true false false (by decide) (by decide)
  rw [h]
  decide

/-- C2: the list builder turns
`[(0,Bullet,"A"),(1,Number,"B"),(1,Number,"C"),(0,Bullet,"D")]` into a `<ul>`
whose first `<li>` nests an `<ol>` with `B` and `C` followed by a sibling
`<li>D</li>`; and a recursive frame that sees an item with level strictly
below its target closes its open list tag and returns that item's index. -/
theorem claim_C2 :
    createListHtml demoListItems (some LKind.bullet)
        = "<ul>\n  <li>A\n    <ol>\n      <li>B</li>\n      <li>C</li>\n    </ol>\n  </li>\n  <li>D</li>\n</ul>"
      ∧ ∀ (items : List LItem) (lvl : Int) (i : Nat) (t : LKind) (acc : List String)
          (h : i < items.length),
          (items.get ⟨i, h⟩).level < lvl →
          (buildLoop items lvl i (some t) acc).val
            = (String.intercalate "\n" (acc ++ ["</" ++ tagOf t ++ ">"]), i) := by
  constructor
  · show createListHtml
        (⟨0, .bullet, "A"⟩ :: [⟨1, .number, "B"⟩, ⟨1, .number, "C"⟩, ⟨0, .bullet, "D"⟩])
        (some LKind.bullet) = _
    rw [createListHtml_evalF]
    decide
  · intro items lvl i t acc h hlt
    rw [buildLoop]
    simp only [dif_pos h, if_pos hlt]
    rfl

/-- C2 witness: the early-return equation of `claim_C2` at a concrete frame. -/
theorem claim_C2_witness :
    (buildLoop [⟨0, LKind.bullet, "E"⟩] 5 0 (some LKind.number) ["x"]).val
      = (String.intercalate "\n" (["x"] ++ ["</" ++ tagOf LKind.number ++ ">"]), 0) :=
  claim_C2.2 [⟨0, LKind.bullet, "E"⟩] 5 0 LKind.number ["x"] (by decide) (by decide)

/-- C3: a field whose instruction scan stops without a `HYPERLINK` match
(separator/end marker first, or nothing found) contributes no span and the
outer scan resumes at the next run; a field whose member-run collection is
empty likewise contributes no span, with the scan resuming after the field.
Both conditions are ordinary branches of the total extraction function,
never failures. -/
theorem claim_C3 :
    (∀ (runs : List RawRun) (i fieldIdx : Nat) (h : i < runs.length),
        (runs.get ⟨i, h⟩).fldChar = some "begin" →
        (scanInstr runs (i + 1)).1 = none →
        extractFieldLoop runs i fieldIdx = extractFieldLoop runs (i + 1) fieldIdx)
    ∧ (∀ (runs : List RawRun) (i fieldIdx : Nat) (h : i < runs.length) (url : String),
        (runs.get ⟨i, h⟩).fldChar = some "begin" →
        (scanInstr runs (i + 1)).1 = some url → url ≠ "" →
        (collectRuns runs (scanSep runs (scanInstr runs (i + 1)).2)).1 = [] →
        extractFieldLoop runs i fieldIdx
          = extractFieldLoop runs
              ((collectRuns runs (scanSep runs (scanInstr runs (i + 1)).2)).2 + 1)
              fieldIdx) := by
  constructor
  · intro runs i fieldIdx h hbegin hscan
    conv_lhs => rw [extractFieldLoop]
    rw [dif_pos h, if_pos hbegin, hscan]
  · intro runs i fieldIdx h url hbegin hscan hurl hcol
    conv_lhs => rw [extractFieldLoop]
    rw [dif_pos h, if_pos hbegin, hscan]
    dsimp only
    rw [if_pos hurl, if_neg (not_not_intro hcol)]

/-- C3 witness: a field-begin immediately followed by a field-end produces no
span and scanning resumes at the next run, via `claim_C3`. -/
theorem claim_C3_witness :
    extractFieldLoop [⟨0, some "begin", none, []⟩, ⟨1, some "end", none, []⟩] 0 0
      = extractFieldLoop [⟨0, some "begin", none, []⟩, ⟨1, some "end", none, []⟩] 1 0 :=
  claim_C3.1 [⟨0, some "begin", none, []⟩, ⟨1, some "end", none, []⟩] 0 0
    (by decide) (by decide)
    (by rw [scanInstr]; simp)

/-- C4: spans none of whose member runs appear in the run walk are appended
after the walk, in extraction order, each preceded by a single space and
rendered from the fallback text; the explicit extractor records the wrapper's
own text (`"Click"`) as that fallback, and the paragraph renders the span as
`<a href="http://x">Click</a>`. -/
theorem claim_C4 :
    (∀ (runs : List Run) (spans : List Span),
        (∀ sp ∈ spans, sp.runIds = []) →
        processRuns runs spans
          = processRuns runs []
            ++ String.join ((spans.filter (fun sp => sp.text ≠ "")).map
                (fun sp => " " ++ formatLink sp.url sp.text)))
    ∧ extractExplicitHyperlinks [("rId1", "http://x")]
        [⟨some "rId1", none, [], some "Click"⟩]
        = [⟨"rId1_0", "http://x", [], "Click"⟩]
    ∧ processRuns [] [⟨"rId1_0", "http://x", [], "Click"⟩]
        = " " ++ formatLink "http://x" "Click"
    ∧ formatLink "http://x" "Click" = "<a href=\"http://x\">Click</a>" := by
  refine ⟨?_, by decide, by decide, by decide⟩
  intro runs spans hm
  refine processRuns_unvisited runs spans ?_
  intro sp hsp r hr
  rw [hm sp hsp]
  simp

/-- C4 witness: the `Click` span with no member runs, via `claim_C4`. -/
theorem claim_C4_witness :
    processRuns [] [⟨"rId1_0", "http://x", [], "Click"⟩]
      = processRuns [] []
        ++ String.join (([(⟨"rId1_0", "http://x", [], "Click"⟩ : Span)].filter
            (fun sp => sp.text ≠ "")).map
              (fun sp => " " ++ formatLink sp.url sp.text)) :=
  claim_C4.1 [] [⟨"rId1_0", "http://x", [], "Click"⟩] (by decide)

/-- C5 counterexample: with a fallback text containing markup the claim fails:
the span `(url := "u", fallback := "<strong>")` makes `_process_runs` emit
`<a href="u"><strong></a>`, which contains an unmatched `<strong>`. -/
theorem claim_C5_counterexample :
    tagBalanced (processRuns [] [⟨"h_0", "u", [], "<strong>"⟩]) = false := by
  have h : processRuns [] [⟨"h_0", "u", [], "<strong>"⟩]
      = " <a href=\"u\"><strong></a>" := by decide
  rw [h]
  unfold tagBalanced
  simp [scanTags, skipToGt]

/-- C5 (amended): for every paragraph input whose span URLs and fallback
texts contain neither `<` nor `>`, the consolidated inline HTML never
contains an unmatched formatting tag: every `<strong>`, `<em>`, `<u>` and
`<a>` opened is closed, properly nested.  (Run text needs no restriction —
it is escaped — but URLs and fallback texts are spliced in verbatim.) -/
theorem claim_C5 (runs : List Run) (spans : List Span)
    (hclean : ∀ sp ∈ spans,
        ('<' ∉ sp.url.data ∧ '>' ∉ sp.url.data)
          ∧ ('<' ∉ sp.text.data ∧ '>' ∉ sp.text.data)) :
    tagBalanced (processRuns runs spans) = true :=
  processRuns_balanced runs spans hclean

/-- C5 witness: a formatted run inside a clean hyperlink span balances. -/
theorem claim_C5_witness :
    tagBalanced (processRuns [⟨0, "Hi", true, false, true⟩]
      [⟨"x_0", "http://x", [0], "Click"⟩]) = true :=
  claim_C5 [⟨0, "Hi", true, false, true⟩] [⟨"x_0", "http://x", [0], "Click"⟩] (by decide)

/-- C6: the list builder is total on every item sequence; a buffer starting
at level 2 builds from 2 as the base level (no crash, no spurious nesting),
and a frame that meets an item with level strictly greater than its target
(with no recursion path taken) ends its sub-list there, returning that
index. -/
theorem claim_C6 :
    createListHtml jumpListItems (some LKind.bullet)
        = "<ul>\n  <li>X\n    <ol>\n      <li>Y</li>\n    </ol>\n  </li>\n</ul>"
      ∧ ∀ (items : List LItem) (lvl : Int) (i : Nat) (ctype : Option LKind)
          (acc : List String) (h : i < items.length),
          (items.get ⟨i, h⟩).level > lvl →
          (buildLoop items lvl i ctype acc).val
            = (String.intercalate "\n" (acc ++ closeParts ctype), i) := by
  constructor
  · show createListHtml (⟨2, .bullet, "X"⟩ :: [⟨3, .number, "Y"⟩]) (some LKind.bullet) = _
    rw [createListHtml_evalF]
    decide
  · intro items lvl i ctype acc h hgt
    have h1 : ¬ (items.get ⟨i, h⟩).level < lvl := by omega
    have h2 : ¬ (items.get ⟨i, h⟩).level = lvl := by omega
    rw [buildLoop]
    simp only [dif_pos h, if_neg h1, if_neg h2]

/-- C6 witness: the defensive-termination equation of `claim_C6` at a
concrete malformed frame. -/
theorem claim_C6_witness :
    (buildLoop [⟨7, LKind.bullet, "Z"⟩] 1 0 (some LKind.bullet) ["w"]).val
      = (String.intercalate "\n" (["w"] ++ closeParts (some LKind.bullet)), 0) :=
  claim_C6.2 [⟨7, LKind.bullet, "Z"⟩] 1 0 (some LKind.bullet) ["w"] (by decide) (by decide)

/-- C7 counterexample: a paragraph whose style name starts with `Heading` but
whose text is empty produces no heading tag at all — the dispatcher emits
nothing for it — so the claim fails as stated for every such paragraph. -/
theorem claim_C7_counterexample :
    pyStartsWith (Para.styleName ⟨"Heading 1", [], [], none⟩) "Heading" = true
      ∧ processBlocks emptyConfig [Block.para ⟨"Heading 1", [], [], none⟩] [] none = [] :=
  ⟨by decide, by decide⟩

/-- C7 (amended): for every paragraph that is not classified as a list item,
whose trimmed text is non-empty and whose style name starts with `Heading`,
the dispatcher first flushes any active accumulating list and then emits the
configured heading tag (default `h3`) around the escaped trimmed text. -/
theorem claim_C7 (cfg : Config) (p : Para) (rest : List Block) (buf : List LItem)
    (ctype : Option LKind)
    (hlist : getListInfo p = none)
    (htext : pyStrip (paraText p) ≠ "")
    (hstyle : pyStartsWith p.styleName "Heading" = true) :
    processBlocks cfg (Block.para p :: rest) buf ctype
      = (if buf ≠ [] then [createListHtml buf ctype] else [])
        ++ ["<" ++ cfg.output.headingTag.getD "h3" ++ ">"
            ++ escapeHtml (pyStrip (paraText p))
            ++ "</" ++ cfg.output.headingTag.getD "h3" ++ ">"]
        ++ processBlocks cfg rest [] none := by
  have hconv : convertParagraph cfg p
      = "<" ++ cfg.output.headingTag.getD "h3" ++ ">"
        ++ escapeHtml (pyStrip (paraText p))
        ++ "</" ++ cfg.output.headingTag.getD "h3" ++ ">" := by
    unfold convertParagraph
    rw [if_neg htext, if_pos hstyle]
  have hne : ("<" ++ cfg.output.headingTag.getD "h3" ++ ">"
      ++ escapeHtml (pyStrip (paraText p))
      ++ "</" ++ cfg.output.headingTag.getD "h3" ++ ">") ≠ "" := by
    intro he
    have h2 := congrArg String.data he
    simp [String.data_append] at h2
  simp only [processBlocks]
  rw [hlist]
  dsimp only
  rw [hconv, if_pos hne, List.append_assoc]

/-- C7 witness: a nonempty heading paragraph, via `claim_C7`. -/
theorem claim_C7_witness :
    processBlocks emptyConfig
        [Block.para ⟨"Heading 2", [⟨0, "Hi", false, false, false⟩], [], none⟩] [] none
      = (if ([] : List LItem) ≠ [] then [createListHtml [] none] else [])
        ++ ["<" ++ emptyConfig.output.headingTag.getD "h3" ++ ">"
            ++ escapeHtml (pyStrip (paraText
                ⟨"Heading 2", [⟨0, "Hi", false, false, false⟩], [], none⟩))
            ++ "</" ++ emptyConfig.output.headingTag.getD "h3" ++ ">"]
        ++ processBlocks emptyConfig [] [] none :=
  claim_C7 emptyConfig ⟨"Heading 2", [⟨0, "Hi", false, false, false⟩], [], none⟩ [] [] none
    (by decide) (by decide) (by decide)

/-- C8: with quote detection enabled, a non-heading nonempty paragraph whose
quote count (as `_count_quotes` computes it over the configured quote types)
is greater than or equal to the configured threshold is wrapped in the
configured outer tag, and one whose count is strictly below the threshold is
not wrapped. -/
theorem claim_C8 (cfg : Config) (p : Para)
    (hen : cfg.quoteDetection.enabled = some true)
    (hstyle : ¬ pyStartsWith p.styleName "Heading" = true)
    (htext : pyStrip (paraText p) ≠ "") :
    (countQuotes cfg (pyStrip (paraText p)) ≥ cfg.quoteDetection.threshold.getD 3 →
      convertParagraph cfg p
        = (parseWrapTag (cfg.quoteDetection.wrapTag.getD "blockquote")).1
          ++ "<" ++ cfg.output.paragraphTag.getD "p" ++ ">"
          ++ processRuns p.runs p.hyperlinks
          ++ "</" ++ cfg.output.paragraphTag.getD "p" ++ ">"
          ++ (parseWrapTag (cfg.quoteDetection.wrapTag.getD "blockquote")).2)
    ∧ (countQuotes cfg (pyStrip (paraText p)) < cfg.quoteDetection.threshold.getD 3 →
      convertParagraph cfg p
        = "<" ++ cfg.output.paragraphTag.getD "p" ++ ">"
          ++ processRuns p.runs p.hyperlinks
          ++ "</" ++ cfg.output.paragraphTag.getD "p" ++ ">") := by
  constructor
  · intro hq
    unfold convertParagraph
    rw [if_neg htext, if_neg hstyle]
    dsimp only
    rw [if_pos (show (cfg.quoteDetection.enabled.getD false) = true by rw [hen]; rfl)]
    rw [if_pos hq]
  · intro hq
    unfold convertParagraph
    rw [if_neg htext, if_neg hstyle]
    dsimp only
    rw [if_pos (show (cfg.quoteDetection.enabled.getD false) = true by rw [hen]; rfl)]
    rw [if_neg (show ¬ countQuotes cfg (pyStrip (paraText p))
        ≥ cfg.quoteDetection.threshold.getD 3 by omega)]

/-- C8 witness: threshold 2 over straight double quotes — three quotes
(strictly above the threshold) wrap, one (below it) does not — via
`claim_C8`. -/
theorem claim_C8_witness :
    convertParagraph
        ⟨⟨none, none⟩, .legacyDict none none, [], ⟨some true, some 2, none, some ["\""]⟩⟩
        ⟨"Normal", [⟨0, "a \"b\" c\"", false, false, false⟩], [], none⟩
      = "<blockquote><p>a &quot;b&quot; c&quot;</p></blockquote>"
    ∧ convertParagraph
        ⟨⟨none, none⟩, .legacyDict none none, [], ⟨some true, some 2, none, some ["\""]⟩⟩
        ⟨"Normal", [⟨0, "a \"b c", false, false, false⟩], [], none⟩
      = "<p>a &quot;b c</p>" := by
  constructor
  · have h := (claim_C8
      ⟨⟨none, none⟩, .legacyDict none none, [], ⟨some true, some 2, none, some ["\""]⟩⟩
      ⟨"Normal", [⟨0, "a \"b\" c\"", false, false, false⟩], [], none⟩
      rfl (by decide) (by decide)).1 (by decide)
    rw [h]
    decide
  · have h := (claim_C8
      ⟨⟨none, none⟩, .legacyDict none none, [], ⟨some true, some 2, none, some ["\""]⟩⟩
      ⟨"Normal", [⟨0, "a \"b c", false, false, false⟩], [], none⟩
      rfl (by decide) (by decide)).2 (by decide)
    rw [h]
    decide

/-- C9: replacement rules run strictly in declared order, each over the
string already rewritten by the earlier rules: peeling the first rule leaves
a fold over the mutated string; rules with an empty (or absent) search term
leave the string unchanged; and with the rules `a→b` then `b→c`, the input
`"a"` becomes `"c"` (rule 2 applies to rule 1's output). -/
theorem claim_C9 :
    (∀ (cfg : Config) (r : ReplacementRule) (rs : List ReplacementRule) (html : String),
        cfg.replacements = r :: rs →
        applyReplacements cfg html
          = List.foldl applyReplacementRule (applyReplacementRule html r) rs)
    ∧ (∀ (html replace : String) (cs : Option Bool),
        applyReplacementRule html ⟨some "", some replace, cs⟩ = html
        ∧ applyReplacementRule html ⟨none, some replace, cs⟩ = html)
    ∧ applyReplacements
        ⟨⟨none, none⟩, .legacyDict none none,
          [⟨some "a", some "b", none⟩, ⟨some "b", some "c", none⟩],
          ⟨none, none, none, none⟩⟩ "a" = "c" := by
  refine ⟨?_, ?_, by decide⟩
  · intro cfg r rs html hrep
    unfold applyReplacements
    rw [hrep, List.foldl_cons]
  · intro html replace cs
    constructor
    · unfold applyReplacementRule
      simp
    · unfold applyReplacementRule
      simp

/-- C9 witness: peeling the first of the two chained rules, via `claim_C9`. -/
theorem claim_C9_witness :
    applyReplacements
        ⟨⟨none, none⟩, .legacyDict none none,
          [⟨some "a", some "b", none⟩, ⟨some "b", some "c", none⟩],
          ⟨none, none, none, none⟩⟩ "a"
      = List.foldl applyReplacementRule
          (applyReplacementRule "a" ⟨some "a", some "b", none⟩)
          [⟨some "b", some "c", none⟩] :=
  claim_C9.1 _ ⟨some "a", some "b", none⟩ [⟨some "b", some "c", none⟩] "a" rfl

/-- C10: a paragraph classified through numbering properties (a `numPr` with
a `numId`) is always assigned kind Bullet, whatever the document's numbering
format; kind Number can only arise from the style-name fallback, which
requires a `List Number` style and no `numId`. -/
theorem claim_C10 :
    (∀ (p : Para) (np : NumPr), p.numPr = some np → np.numId.isSome →
        getListInfo p
          = some (LKind.bullet, np.ilvl.getD 0, processRuns p.runs p.hyperlinks))
    ∧ (∀ (p : Para) (lvl : Int) (txt : String),
        getListInfo p = some (LKind.number, lvl, txt) →
        (p.numPr = none ∨ ∃ np, p.numPr = some np ∧ np.numId = none)
        ∧ (hasSubstr (pyLower p.styleName) "list number"
            || pyStartsWith p.styleName "List Number") = true) := by
  have hstyle : ∀ (p : Para) (lvl : Int) (txt : String),
      styleListInfo p = some (LKind.number, lvl, txt) →
      (hasSubstr (pyLower p.styleName) "list number"
        || pyStartsWith p.styleName "List Number") = true := by
    intro p lvl txt hinfo
    unfold styleListInfo at hinfo
    by_cases hb : (hasSubstr (pyLower p.styleName) "list bullet"
        || pyStartsWith p.styleName "List Bullet") = true
    · rw [if_pos hb] at hinfo
      exact absurd hinfo (by simp)
    · rw [if_neg hb] at hinfo
      by_cases hn : (hasSubstr (pyLower p.styleName) "list number"
          || pyStartsWith p.styleName "List Number") = true
      · exact hn
      · rw [if_neg hn] at hinfo
        exact absurd hinfo (by simp)
  constructor
  · intro p np hnp hnum
    unfold getListInfo
    rw [hnp]
    dsimp only
    rw [if_pos hnum]
  · intro p lvl txt hinfo
    unfold getListInfo at hinfo
    cases hnp : p.numPr with
    | none =>
      rw [hnp] at hinfo
      exact ⟨Or.inl rfl, hstyle p lvl txt hinfo⟩
    | some np =>
      rw [hnp] at hinfo
      dsimp only at hinfo
      by_cases hnum : np.numId.isSome
      · rw [if_pos hnum] at hinfo
        exact absurd hinfo (by simp)
      · rw [if_neg hnum] at hinfo
        exact ⟨Or.inr ⟨np, rfl, by simpa using hnum⟩, hstyle p lvl txt hinfo⟩

/-- C10 witness: a numbering-properties paragraph classifies as Bullet, via
`claim_C10`. -/
theorem claim_C10_witness :
    getListInfo ⟨"Anything", [⟨0, "t", false, false, false⟩], [], some ⟨some 1, some 5⟩⟩
      = some (LKind.bullet, (1 : Int), processRuns [⟨0, "t", false, false, false⟩] []) := by
  have h := claim_C10.1
    ⟨"Anything", [⟨0, "t", false, false, false⟩], [], some ⟨some 1, some 5⟩⟩
    ⟨some 1, some 5⟩ rfl (by decide)
  simpa using h

end Makehtml
